import Mathlib

/-!
Verification of the georgian-rag core against its specification.

Shallow embeddings of the components referenced by the claims:
  * Cache Store            — src/utils/CacheManager.py
  * Fusion Engine          — src/search/rrf.py (clean-fusion pipeline)
  * BM25 Engine            — src/search/bm25.py (result cache)
  * PreFilter Engine       — src/search/PreFilterEngine.py
  * Multilingual vocabularies — src/multilingual/multilingual_manager.py
  * Enrichment persister   — src/enrichment/persister.py
  * Hybrid orchestrator    — src/search/HybridSearchEngine.py

Machine integers and floats of the source are modelled with Nat and Rat;
external collaborators (redis, Qdrant, MD5, the BM25 library, embedding
models) are abstract parameters, exactly as the spec treats them.
-/

namespace GeorgianRag

namespace Cache

/-- Composite cache key: `CacheManager._make_key` returns `ns + ":" + key`. -/
def makeKey (ns key : String) : String := ns ++ ":" ++ key

/-- One remote (redis) entry: the stored value plus an optional absolute expiry
instant.  `set` stores it via `setex` with expiry `now + ttl`; `set_permanent`
stores it via plain `set`, with no expiry. -/
structure RedisEntry (V : Type) where
  val : V
  expiry : Option Nat
  deriving DecidableEq

/-- State of a `CacheManager`: the process-local `memory_cache` dict, the
optional remote store, a discrete clock in seconds and the `default_ttl`.
The JSON serialisation round-trip of values is the identity in this model,
and the statistics counters are not modelled. -/
structure CacheState (V : Type) where
  mem : String → Option V
  redis : Option (String → Option (RedisEntry V))
  now : Nat
  defaultTtl : Nat

/-- Point update of a string-keyed map. -/
def mapSet {V : Type} (m : String → Option V) (k : String) (v : V) :
    String → Option V :=
  fun k2 => if k2 = k then some v else m k2

/-- Reading one redis slot at time `now`, falling back to the memory value:
an entry is visible only while unexpired (an expired entry reads as a redis
miss, which is what elapsing past a TTL means). -/
def readThrough {V : Type} (slot : Option (RedisEntry V)) (memv : Option V)
    (now : Nat) : Option V :=
  match slot with
  | some e =>
    match e.expiry with
    | none => some e.val
    | some t => if now < t then some e.val else memv
  | none => memv

/-- `CacheManager.get`: when a remote store is configured it is consulted
first; a redis miss falls through to the local memory dict, which never
expires anything. -/
def getVal {V : Type} (st : CacheState V) (ns key : String) : Option V :=
  match st.redis with
  | some r => readThrough (r (makeKey ns key)) (st.mem (makeKey ns key)) st.now
  | none => st.mem (makeKey ns key)

/-- `CacheManager.set` (TTL-bearing write).  Python's `ttl or default_ttl`
treats both `None` and `0` as "use the default".  It writes the remote store
via `setex` when present, and always writes the local memory dict. -/
def setTtl {V : Type} (st : CacheState V) (ns key : String) (v : V)
    (ttl : Option Nat) : CacheState V :=
  let ck := makeKey ns key
  let t := match ttl with
    | none => st.defaultTtl
    | some n => if n = 0 then st.defaultTtl else n
  { st with
    mem := mapSet st.mem ck v
    redis := st.redis.map (fun r => mapSet r ck ⟨v, some (st.now + t)⟩) }

/-- `CacheManager.set_permanent`: plain redis `set` with no TTL, plus the
local memory dict write. -/
def setPermanent {V : Type} (st : CacheState V) (ns key : String) (v : V) :
    CacheState V :=
  { st with
    mem := mapSet st.mem (makeKey ns key) v
    redis := st.redis.map (fun r => mapSet r (makeKey ns key) ⟨v, none⟩) }

/-- `CacheManager.delete`: removes the composite key from both tiers. -/
def deleteKey {V : Type} (st : CacheState V) (ns key : String) : CacheState V :=
  let ck := makeKey ns key
  { st with
    mem := fun k2 => if k2 = ck then none else st.mem k2
    redis := st.redis.map (fun r k2 => if k2 = ck then none else r k2) }

/-- `CacheManager.clear_namespace`: removes every key starting with
`ns + ":"` from both tiers (redis pattern `ns:*`).  The deleted-key count is
not modelled. -/
def clearNamespace {V : Type} (st : CacheState V) (ns : String) : CacheState V :=
  { st with
    mem := fun k2 => if (ns ++ ":").isPrefixOf k2 then none else st.mem k2
    redis := st.redis.map
      (fun r k2 => if (ns ++ ":").isPrefixOf k2 then none else r k2) }

/-- Passage of time: advances the clock; redis entries whose expiry has passed
become invisible to `getVal`. -/
def elapse {V : Type} (st : CacheState V) (t : Nat) : CacheState V :=
  { st with now := st.now + t }

/-- The interference considered by claim C1: TTL-bearing `set` writes and
arbitrary passage of time. -/
inductive CacheOp (V : Type) where
  | setW (ns key : String) (v : V) (ttl : Option Nat)
  | elapseW (t : Nat)

def applyOp {V : Type} (st : CacheState V) : CacheOp V → CacheState V
  | .setW ns key v ttl => setTtl st ns key v ttl
  | .elapseW t => elapse st t

def applyOps {V : Type} (st : CacheState V) (ops : List (CacheOp V)) :
    CacheState V :=
  ops.foldl applyOp st

/-- An interfering operation avoids the composite key `ck` (time may always
pass). -/
def opAvoids {V : Type} (ck : String) : CacheOp V → Prop
  | .setW ns2 k2 _ _ => makeKey ns2 k2 ≠ ck
  | .elapseW _ => True

instance {V : Type} (ck : String) (op : CacheOp V) : Decidable (opAvoids ck op) :=
  match op with
  | .setW ns2 k2 _ _ => inferInstanceAs (Decidable (makeKey ns2 k2 ≠ ck))
  | .elapseW _ => inferInstanceAs (Decidable True)

/-- Both tiers hold `v` at the composite key `ck`, the redis entry with no
expiry. -/
def holdsPermanently {V : Type} (st : CacheState V) (ck : String) (v : V) : Prop :=
  st.mem ck = some v ∧ ∀ r, st.redis = some r → r ck = some ⟨v, none⟩

lemma holdsPermanently_setPermanent {V : Type} (st : CacheState V)
    (ns key : String) (v : V) :
    holdsPermanently (setPermanent st ns key v) (makeKey ns key) v := by
  refine ⟨by simp [setPermanent, mapSet], ?_⟩
  intro r hr
  simp only [setPermanent] at hr
  cases hredis : st.redis with
  | none => simp [hredis] at hr
  | some r0 =>
    simp only [hredis, Option.map_some] at hr
    cases hr
    simp [mapSet]

lemma holdsPermanently_applyOp {V : Type} (st : CacheState V) (ck : String)
    (v : V) (op : CacheOp V) (hop : opAvoids ck op)
    (h : holdsPermanently st ck v) :
    holdsPermanently (applyOp st op) ck v := by
  obtain ⟨hmem, hred⟩ := h
  cases op with
  | setW ns2 k2 v2 ttl =>
    simp only [opAvoids] at hop
    constructor
    · simp only [applyOp, setTtl, mapSet]
      rw [if_neg (fun h => hop h.symm), hmem]
    · intro r hr
      simp only [applyOp, setTtl] at hr
      cases hredis : st.redis with
      | none => simp [hredis] at hr
      | some r0 =>
        simp only [hredis, Option.map_some] at hr
        cases hr
        simp only [mapSet]
        rw [if_neg (fun h => hop h.symm)]
        exact hred r0 hredis
  | elapseW t =>
    exact ⟨hmem, fun r hr => hred r hr⟩

lemma holdsPermanently_applyOps {V : Type} (st : CacheState V) (ck : String)
    (v : V) (ops : List (CacheOp V)) (hops : ∀ op ∈ ops, opAvoids ck op)
    (h : holdsPermanently st ck v) :
    holdsPermanently (applyOps st ops) ck v := by
  induction ops generalizing st with
  | nil => exact h
  | cons op rest ih =>
    exact ih (applyOp st op)
      (fun o ho => hops o (List.mem_cons_of_mem op ho))
      (holdsPermanently_applyOp st ck v op (hops op (List.mem_cons_self op rest)) h)

lemma getVal_of_holdsPermanently {V : Type} (st : CacheState V)
    (ns key : String) (v : V)
    (h : holdsPermanently st (makeKey ns key) v) :
    getVal st ns key = some v := by
  obtain ⟨hmem, hred⟩ := h
  unfold getVal
  cases hredis : st.redis with
  | none => exact hmem
  | some r =>
    show readThrough (r (makeKey ns key)) (st.mem (makeKey ns key)) st.now = some v
    rw [hred r hredis]
    rfl

/-- Claim C1 (amended): after `set_permanent(ns, k, v)`, every subsequent
`get(ns, k)` returns `v` after any elapse of time and any number of
TTL-bearing `set` writes whose composite key `ns' + ":" + k'` differs from
`ns + ":" + k`, until `k` is explicitly deleted or the namespace is cleared.
(The claim as frozen quantifies over writes to other `(namespace, key)`
pairs; two distinct pairs can collide on the same composite key, which is the
only correction — see the counterexample.) -/
theorem permanent_cache_durability {V : Type} (st : CacheState V)
    (ns key : String) (v : V) (ops : List (CacheOp V))
    (hops : ∀ op ∈ ops, opAvoids (makeKey ns key) op) :
    getVal (applyOps (setPermanent st ns key v) ops) ns key = some v :=
  getVal_of_holdsPermanently _ ns key v
    (holdsPermanently_applyOps _ _ v ops hops
      (holdsPermanently_setPermanent st ns key v))

/-- Concrete empty memory-only cache state over `Nat` values. -/
def exampleState : CacheState Nat :=
  { mem := fun _ => none, redis := none, now := 0, defaultTtl := 86400 }

/-- Claim C1, as frozen, is false: writing permanently under the pair
`("a:b", "c")` and then issuing a TTL-bearing `set` to the DIFFERENT
`(namespace, key)` pair `("a", "b:c")` overwrites the permanent entry,
because both pairs map to the composite key `"a:b:c"`; the subsequent
`get("a:b", "c")` returns the later TTL-bearing value, not `v`. -/
theorem permanent_cache_claim_counterexample :
    (("a", "b:c") ≠ ("a:b", "c")) ∧
    getVal (setTtl (setPermanent exampleState "a:b" "c" 1) "a" "b:c" 2 none)
      "a:b" "c" = some 2 := by
  constructor
  · decide
  · rfl

/-- Witness for `permanent_cache_durability` at a concrete state and
operation list. -/
theorem permanent_cache_durability_witness :
    getVal (applyOps (setPermanent exampleState "ns" "k" 7)
      [CacheOp.setW "ns" "k2" 9 none, CacheOp.elapseW 100000,
       CacheOp.setW "other" "k" 3 (some 60)]) "ns" "k" = some 7 :=
  permanent_cache_durability exampleState "ns" "k" 7
    [CacheOp.setW "ns" "k2" 9 none, CacheOp.elapseW 100000,
     CacheOp.setW "other" "k" 3 (some 60)] (by decide)

end Cache

namespace Fusion

/-- ASCII upper-casing, Python str.upper on the ASCII language codes used
here. -/
def asciiUpper (s : String) : String := String.mk (s.data.map Char.toUpper)

/-- Substring test, Python `needle in hay`. -/
def strContains (hay needle : String) : Bool :=
  hay.toList.tails.any (fun t => needle.toList.isPrefixOf t)

/-- Maximum of a list of rationals; the empty case is guarded at every call
site in the source (`if results else 1.0`). -/
def qMax : List ℚ → ℚ
  | [] => 1
  | x :: xs => xs.foldl max x

/-- Minimum of a list of rationals (same guarding as `qMax`). -/
def qMin : List ℚ → ℚ
  | [] => 1
  | x :: xs => xs.foldl min x

/-- The metadata fields a `SearchResult` carries that the clean-fusion boost
pass reads: `metadata.get('language')` and
`metadata.get('is_fully_enriched', False)`. -/
structure ResultMeta where
  language : Option String
  isFullyEnriched : Bool
  deriving DecidableEq

/-- `core.types.SearchResult`, restricted to the fields the fusion engine
reads; scores are modelled as rationals. -/
structure SearchResult where
  docId : String
  score : ℚ
  meta : ResultMeta
  deriving DecidableEq

/-- The part of `QueryAnalysis` the clean-fusion boosts read. -/
structure QueryAnalysis where
  language : String

/-- A fusion `results_dict`: (source name, ranked results) pairs in dict
insertion order.  The orchestrator's `prefilter_info` entry carries no result
list and every fusion loop skips it by name, which the model mirrors. -/
abbrev FusionInput := List (String × List SearchResult)

/-- Association-list lookup (Python `d.get(k)` on a dict modelled as a list
of key/value pairs). -/
def getA {β : Type} : List (String × β) → String → Option β
  | [], _ => none
  | (k2, v) :: rest, key => if key = k2 then some v else getA rest key

/-- Python dict update `d[k] = v` on an association list: overwrite in place
when the key exists, append otherwise. -/
def setEntry {β : Type} (m : List (String × β)) (key : String) (v : β) :
    List (String × β) :=
  if (getA m key).isSome then
    m.map (fun p => if p.1 = key then (key, v) else p)
  else m ++ [(key, v)]

/-- `RRFFusionEngine.__init__` default `k` (used when the engine is built
with no argument, e.g. in the component tests). -/
def rrfDefaultK : ℚ := 3

/-- `HybridSearchEngine.__init__` builds the fusion engine as
`RRFFusionEngine(k=self.config.get('rrf_k', 60))`; the config is keyed by
string. -/
def hybridRrfK (config : List (String × ℚ)) : ℚ := (getA config "rrf_k").getD 60

/-- The rank amplification applied by `_calculate_focused_rrf_scores` for
ranks 1, 2, 3. -/
def posAmp (rank : ℕ) : ℚ :=
  if rank = 1 then 3 else if rank = 2 then 2 else if rank = 3 then 3/2 else 1

/-- One iteration of `_calculate_focused_rrf_scores`:
`final_score = weight * (1/(k + rank)) * score * 10`, then `*= 3 / 2 / 1.5`
at ranks 1 / 2 / 3. -/
def rrfContribution (k w : ℚ) (rank : ℕ) (score : ℚ) : ℚ :=
  let base := w * (1 / (k + (rank : ℚ))) * score * 10
  if rank = 1 then base * 3
  else if rank = 2 then base * 2
  else if rank = 3 then base * (3/2)
  else base

/-- `weights.get(source, 0.5)`. -/
def weightOf (weights : List (String × ℚ)) (source : String) : ℚ :=
  (getA weights source).getD (1/2)

/-- `_calculate_focused_weights` base table (`0.3` for unknown sources). -/
def baseWeight (source : String) : ℚ :=
  if source = "bm25" then 2/5
  else if source = "bm25_focused" then 9/20
  else if source = "dense" then 1/2
  else if source = "dense_focused" then 11/20
  else if source = "metadata" then 1/10
  else 3/10

/-- `_calculate_focused_weights`: the sources present (minus
`prefilter_info`; the model assumes the dict keys, hence the names, are
distinct), each given its base weight, renormalised to sum 1 when the sum is
positive. -/
def calcFocusedWeights (input : FusionInput) : List (String × ℚ) :=
  let names := (input.map Prod.fst).filter (fun n => n ≠ "prefilter_info")
  let raw := names.map (fun n => (n, baseWeight n))
  let total := (raw.map Prod.snd).sum
  if 0 < total then raw.map (fun p => (p.1, p.2 / total)) else raw

/-- `_normalize_focused_scores`, one source: BM25-like sources
(`'bm25' in source`) are scaled by `0.2 + 0.8*(score/max)` on positive
scores; dense-like sources are min-max scaled into [0.3, 1.0] on positive
scores (flat 0.8 if all positive scores are equal, untouched when no score
is positive); any other source gets `0.1 + 0.9*(score/max)`. -/
def normalizeSource (source : String) (results : List SearchResult) :
    List SearchResult :=
  if strContains source "bm25" then
    let mx := qMax (results.map SearchResult.score)
    results.map (fun r =>
      { r with score := if 0 < r.score then 1/5 + (4/5) * (r.score / mx) else 0 })
  else if strContains source "dense" then
    let pos := (results.map SearchResult.score).filter (fun s => 0 < s)
    if pos = [] then results
    else
      let mx := qMax pos
      let mn := qMin pos
      if mn < mx then
        results.map (fun r =>
          { r with score :=
              if 0 < r.score then 3/10 + (7/10) * ((r.score - mn) / (mx - mn))
              else 0 })
      else
        results.map (fun r => { r with score := if 0 < r.score then 4/5 else 0 })
  else
    let pos := (results.map SearchResult.score).filter (fun s => 0 < s)
    if pos = [] then results
    else
      let mx := qMax pos
      results.map (fun r =>
        { r with score :=
            if 0 < r.score ∧ 0 < mx then 1/10 + (9/10) * (r.score / mx) else 0 })

/-- `_normalize_focused_scores`: per-source normalisation, with
`prefilter_info` and empty result lists passed through unchanged. -/
def normalizeFocusedScores (input : FusionInput) : FusionInput :=
  input.map (fun p =>
    if p.1 = "prefilter_info" ∨ p.2 = [] then p
    else (p.1, normalizeSource p.1 p.2))

/-- The per-document record accumulated by `_calculate_focused_rrf_scores`:
`total_score`, `source_scores`, `rank_info` and the first `result` object
seen for the document.  `boost_factor` is written by the boost pass
(`score_data.get('boost_factor', 1.0)` reads 1 before that). -/
structure ScoreData where
  total : ℚ
  sourceScores : List (String × ℚ)
  rankInfo : List (String × ℕ)
  result : SearchResult
  boostFactor : ℚ := 1
  deriving DecidableEq

/-- `doc_scores`, a dict keyed by `doc_id`, modelled by its lookup
function (the claims only read it pointwise). -/
abbrev ScoreMap := String → Option ScoreData

/-- The body of the inner loop of `_calculate_focused_rrf_scores` for one
`(rank, result)` pair of `source`: create the entry if absent, then add the
contribution `final_score` and record the per-source score and rank. -/
def stepDoc (k w : ℚ) (source : String) (rank : ℕ) (res : SearchResult)
    (st : ScoreMap) : ScoreMap :=
  fun d =>
    if d = res.docId then
      match st res.docId with
      | none => some { total := rrfContribution k w rank res.score,
                       sourceScores := [(source, rrfContribution k w rank res.score)],
                       rankInfo := [(source, rank)], result := res }
      | some sd => some { total := sd.total + rrfContribution k w rank res.score,
                          sourceScores :=
                            setEntry sd.sourceScores source
                              (rrfContribution k w rank res.score),
                          rankInfo := setEntry sd.rankInfo source rank,
                          result := sd.result,
                          boostFactor := sd.boostFactor }
    else st d

/-- The inner loop `for rank, result in enumerate(results, 1)`. -/
def procResults (k w : ℚ) (source : String) : ℕ → List SearchResult →
    ScoreMap → ScoreMap
  | _, [], st => st
  | rank, res :: rest, st =>
    procResults k w source (rank + 1) rest (stepDoc k w source rank res st)

/-- `_calculate_focused_rrf_scores`: outer loop over the sources; sources
named `prefilter_info` or with an empty result list are skipped, the weight
is `weights.get(source, 0.5)`. -/
def calcFocusedRRFScores (k : ℚ) (input : FusionInput)
    (weights : List (String × ℚ)) : ScoreMap :=
  input.foldl
    (fun st p =>
      if p.1 = "prefilter_info" ∨ p.2 = [] then st
      else procResults k (weightOf weights p.1) p.1 1 p.2 st)
    (fun _ => none)

/-- Boost ×1.2 when the payload `language` equals the query language in
upper case. -/
def langBoost (qa : QueryAnalysis) (sd : ScoreData) : ℚ :=
  if sd.result.meta.language = some (asciiUpper qa.language) then 6/5 else 1

/-- Boost ×(1 + 0.3·(S−1)) when ranked by S ≥ 2 sources. -/
def srcCountBoost (n : ℕ) : ℚ :=
  if 2 ≤ n then 1 + (3/10) * ((n : ℚ) - 1) else 1

/-- Boost ×1.5 when in the top-3 of at least two sources. -/
def topRanksBoost (n : ℕ) : ℚ := if 2 ≤ n then 3/2 else 1

/-- Boost ×1.1 when the payload flags `is_fully_enriched`. -/
def enrichedBoost (sd : ScoreData) : ℚ :=
  if sd.result.meta.isFullyEnriched then 11/10 else 1

/-- Boost ×1.8 when rank 1 in at least one source. -/
def firstPlaceBoost (n : ℕ) : ℚ := if 1 ≤ n then 9/5 else 1

/-- The boost factor computed by `_apply_focused_contextual_boosts` for one
document's accumulated data: the five successive `boost_factor *=` steps
(float constants 1.2, 0.3, 1.5, 1.1, 1.8 as exact rationals), with the
source count `len(source_scores)` and the rank counts over
`rank_info.values()`. -/
def boostFactorOf (qa : QueryAnalysis) (sd : ScoreData) : ℚ :=
  langBoost qa sd * srcCountBoost sd.sourceScores.length
    * topRanksBoost (sd.rankInfo.filter (fun p => p.2 ≤ 3)).length
    * enrichedBoost sd
    * firstPlaceBoost (sd.rankInfo.filter (fun p => p.2 = 1)).length

/-- `_apply_focused_contextual_boosts`: every accumulated entry has its
`total_score` multiplied by its boost factor, which is also recorded. -/
def applyFocusedContextualBoosts (qa : QueryAnalysis) (st : ScoreMap) :
    ScoreMap :=
  fun d => (st d).map (fun sd =>
    { sd with total := sd.total * boostFactorOf qa sd,
              boostFactor := boostFactorOf qa sd })

/-- The clean-fusion score pipeline (`_clean_fusion_pipeline` up to and
including the boost pass; the final assembly step only sorts by
`total_score` and truncates, which the claims do not touch). -/
def cleanFusionScores (k : ℚ) (qa : QueryAnalysis) (input : FusionInput) :
    ScoreMap :=
  applyFocusedContextualBoosts qa
    (calcFocusedRRFScores k (normalizeFocusedScores input)
      (calcFocusedWeights input))

/-- The (post-boost) total fusion score of a document, 0 when absent. -/
def totalOf (st : ScoreMap) (d : String) : ℚ :=
  ((st d).map ScoreData.total).getD 0

/-- First occurrence of document `d` in a ranked result list, with its rank;
ranks count from the `rank` argument. -/
def firstOccAux (d : String) : ℕ → List SearchResult → Option (ℕ × SearchResult)
  | _, [] => none
  | rank, r :: rest =>
    if r.docId = d then some (rank, r) else firstOccAux d (rank + 1) rest

/-- The occurrence (source name, rank, result) of document `d` in one
`results_dict` entry, when the entry is not `prefilter_info` and contains
`d`. -/
def occOf (d : String) (p : String × List SearchResult) :
    Option (String × ℕ × SearchResult) :=
  if p.1 = "prefilter_info" then none
  else (firstOccAux d 1 p.2).map (fun q => (p.1, q))

/-- All occurrences of document `d` across a fusion input. -/
def occsFor (d : String) (input : FusionInput) :
    List (String × ℕ × SearchResult) :=
  input.filterMap (occOf d)

/-- Contribution of one occurrence to the accumulated total. -/
def occContribution (k : ℚ) (weights : List (String × ℚ))
    (o : String × ℕ × SearchResult) : ℚ :=
  rrfContribution k (weightOf weights o.1) o.2.1 o.2.2.score

/-- Closed form of the `doc_scores` entry accumulated for a document with
the given occurrence list. -/
def entrySpec (k : ℚ) (weights : List (String × ℚ))
    (occs : List (String × ℕ × SearchResult)) : Option ScoreData :=
  match occs with
  | [] => none
  | o0 :: _ => some
      { total := (occs.map (occContribution k weights)).sum,
        sourceScores := occs.map (fun o => (o.1, occContribution k weights o)),
        rankInfo := occs.map (fun o => (o.1, o.2.1)),
        result := o0.2.2 }

lemma getA_eq_none {β : Type} (m : List (String × β)) (key : String)
    (h : key ∉ m.map Prod.fst) : getA m key = none := by
  induction m with
  | nil => rfl
  | cons p rest ih =>
    obtain ⟨k2, v⟩ := p
    simp only [List.map_cons, List.mem_cons] at h
    push_neg at h
    simp only [getA]
    rw [if_neg h.1]
    exact ih h.2

lemma setEntry_append {β : Type} (m : List (String × β)) (key : String) (v : β)
    (h : key ∉ m.map Prod.fst) : setEntry m key v = m ++ [(key, v)] := by
  simp [setEntry, getA_eq_none m key h]

lemma firstOccAux_eq_none (d : String) (rank : ℕ) (rs : List SearchResult)
    (h : d ∉ rs.map SearchResult.docId) : firstOccAux d rank rs = none := by
  induction rs generalizing rank with
  | nil => rfl
  | cons r rest ih =>
    simp only [List.map_cons, List.mem_cons] at h
    push_neg at h
    simp only [firstOccAux]
    rw [if_neg (fun hh => h.1 hh.symm)]
    exact ih _ h.2

lemma firstOccAux_append (d : String) (rank : ℕ) (l1 l2 : List SearchResult)
    (res : SearchResult) (hres : res.docId = d)
    (h1 : d ∉ l1.map SearchResult.docId) :
    firstOccAux d rank (l1 ++ res :: l2) = some (rank + l1.length, res) := by
  induction l1 generalizing rank with
  | nil => simp [firstOccAux, hres]
  | cons x l1 ih =>
    simp only [List.map_cons, List.mem_cons] at h1
    push_neg at h1
    show (if x.docId = d then some (rank, x)
      else firstOccAux d (rank + 1) (l1 ++ res :: l2)) = _
    rw [if_neg (fun hh => h1.1 hh.symm), ih (rank + 1) h1.2]
    simp only [List.length_cons, Option.some.injEq, Prod.mk.injEq]
    exact ⟨by omega, trivial⟩

lemma firstOccAux_mem (d : String) (rank : ℕ) (rs : List SearchResult)
    (q : ℕ × SearchResult) (h : firstOccAux d rank rs = some q) :
    q.2 ∈ rs ∧ q.2.docId = d ∧ rank ≤ q.1 := by
  induction rs generalizing rank with
  | nil => simp [firstOccAux] at h
  | cons r rest ih =>
    simp only [firstOccAux] at h
    by_cases hc : r.docId = d
    · rw [if_pos hc] at h
      cases h
      exact ⟨List.mem_cons_self r rest, hc, le_refl rank⟩
    · rw [if_neg hc] at h
      obtain ⟨hm, hd, hr⟩ := ih (rank + 1) h
      exact ⟨List.mem_cons_of_mem r hm, hd, by omega⟩

lemma occsFor_fst_mem (d : String) (input : FusionInput)
    (o : String × ℕ × SearchResult) (h : o ∈ occsFor d input) :
    o.1 ∈ input.map Prod.fst := by
  simp only [occsFor, occOf, List.mem_filterMap] at h
  obtain ⟨p, hp, hpo⟩ := h
  by_cases hpre : p.1 = "prefilter_info"
  · rw [if_pos hpre] at hpo
    exact Option.noConfusion hpo
  · rw [if_neg hpre] at hpo
    cases hoc : firstOccAux d 1 p.2 with
    | none =>
      rw [hoc] at hpo
      exact Option.noConfusion hpo
    | some q =>
      rw [hoc] at hpo
      have hpo2 : (p.1, q) = o := Option.some.inj hpo
      rw [← hpo2]
      exact List.mem_map_of_mem Prod.fst hp

lemma occsFor_mem_source (d : String) (input : FusionInput)
    (o : String × ℕ × SearchResult) (h : o ∈ occsFor d input) :
    ∃ p ∈ input, o.2.2 ∈ p.2 ∧ o.2.2.docId = d ∧ 1 ≤ o.2.1 := by
  simp only [occsFor, occOf, List.mem_filterMap] at h
  obtain ⟨p, hp, hpo⟩ := h
  by_cases hpre : p.1 = "prefilter_info"
  · rw [if_pos hpre] at hpo
    exact Option.noConfusion hpo
  · rw [if_neg hpre] at hpo
    cases hoc : firstOccAux d 1 p.2 with
    | none =>
      rw [hoc] at hpo
      exact Option.noConfusion hpo
    | some q =>
      rw [hoc] at hpo
      have hpo2 : (p.1, q) = o := Option.some.inj hpo
      obtain ⟨hm, hd, hr⟩ := firstOccAux_mem d 1 p.2 q hoc
      refine ⟨p, hp, ?_⟩
      rw [← hpo2]
      exact ⟨hm, hd, hr⟩

lemma stepDoc_ne (k w : ℚ) (source : String) (rank : ℕ) (res : SearchResult)
    (st : ScoreMap) (d : String) (h : d ≠ res.docId) :
    stepDoc k w source rank res st d = st d := by
  simp only [stepDoc]
  rw [if_neg h]

lemma stepDoc_congr (k w : ℚ) (source : String) (rank : ℕ)
    (res : SearchResult) (st1 st2 : ScoreMap)
    (h : st1 res.docId = st2 res.docId) (d : String) (hd : d = res.docId) :
    stepDoc k w source rank res st1 d = stepDoc k w source rank res st2 d := by
  subst hd
  simp only [stepDoc, h]

lemma stepDoc_apply_none (k w : ℚ) (source : String) (rank : ℕ)
    (res : SearchResult) (st : ScoreMap) (d : String) (hd : d = res.docId)
    (hst : st d = none) :
    stepDoc k w source rank res st d
      = some { total := rrfContribution k w rank res.score,
               sourceScores := [(source, rrfContribution k w rank res.score)],
               rankInfo := [(source, rank)], result := res } := by
  subst hd
  simp only [stepDoc]
  rw [if_true, hst]

lemma stepDoc_apply_some (k w : ℚ) (source : String) (rank : ℕ)
    (res : SearchResult) (st : ScoreMap) (d : String) (sd : ScoreData)
    (hd : d = res.docId) (hst : st d = some sd) :
    stepDoc k w source rank res st d
      = some { total := sd.total + rrfContribution k w rank res.score,
               sourceScores :=
                 setEntry sd.sourceScores source (rrfContribution k w rank res.score),
               rankInfo := setEntry sd.rankInfo source rank,
               result := sd.result, boostFactor := sd.boostFactor } := by
  subst hd
  simp only [stepDoc]
  rw [if_true, hst]

lemma procResults_not_mem (k w : ℚ) (source : String) (rank : ℕ)
    (rs : List SearchResult) (st : ScoreMap) (d : String)
    (h : d ∉ rs.map SearchResult.docId) :
    procResults k w source rank rs st d = st d := by
  induction rs generalizing rank st with
  | nil => rfl
  | cons r rest ih =>
    simp only [List.map_cons, List.mem_cons] at h
    push_neg at h
    simp only [procResults]
    rw [ih (rank + 1) _ h.2]
    exact stepDoc_ne k w source rank r st d h.1

lemma procResults_split (k w : ℚ) (source : String) (rank : ℕ)
    (l1 l2 : List SearchResult) (res : SearchResult) (st : ScoreMap)
    (d : String) (hres : res.docId = d)
    (h1 : d ∉ l1.map SearchResult.docId) (h2 : d ∉ l2.map SearchResult.docId) :
    procResults k w source rank (l1 ++ res :: l2) st d
      = stepDoc k w source (rank + l1.length) res st d := by
  induction l1 generalizing rank st with
  | nil =>
    simp only [List.nil_append, procResults, List.length_nil, Nat.add_zero]
    rw [procResults_not_mem k w source (rank + 1) l2 _ d h2]
  | cons x l1 ih =>
    simp only [List.map_cons, List.mem_cons] at h1
    push_neg at h1
    show procResults k w source (rank + 1) (l1 ++ res :: l2)
      (stepDoc k w source rank x st) d = _
    rw [ih (rank + 1) _ h1.2]
    have hx : (stepDoc k w source rank x st) res.docId = st res.docId := by
      apply stepDoc_ne
      rw [hres]; exact h1.1
    rw [stepDoc_congr k w source _ res _ st hx d hres.symm]
    simp only [List.length_cons]
    have harith : rank + 1 + l1.length = rank + (l1.length + 1) := by omega
    rw [harith]

lemma exists_first_split (d : String) (l : List SearchResult)
    (hmem : d ∈ l.map SearchResult.docId)
    (hnd : (l.map SearchResult.docId).Nodup) :
    ∃ l1 res l2, l = l1 ++ res :: l2 ∧ res.docId = d ∧
      d ∉ l1.map SearchResult.docId ∧ d ∉ l2.map SearchResult.docId := by
  obtain ⟨res, hresl, hresd⟩ := List.mem_map.mp hmem
  obtain ⟨l1, l2, rfl⟩ := List.append_of_mem hresl
  refine ⟨l1, res, l2, rfl, hresd, ?_, ?_⟩
  · intro hd
    rw [List.map_append, List.map_cons] at hnd
    have := (List.nodup_append.mp hnd).2.2
    exact this hd (by rw [hresd]; exact List.mem_cons_self _ _)
  · intro hd
    rw [List.map_append, List.map_cons] at hnd
    have := ((List.nodup_append.mp hnd).2.1)
    rw [List.nodup_cons] at this
    rw [← hresd] at hd
    exact this.1 hd

lemma occsFor_single_none (d : String) (p : String × List SearchResult)
    (hdmem : d ∉ p.2.map SearchResult.docId) (hpre : p.1 ≠ "prefilter_info") :
    occsFor d [p] = [] := by
  simp [occsFor, occOf, hpre, firstOccAux_eq_none d 1 p.2 hdmem]

lemma occsFor_single_some (d : String) (p : String × List SearchResult)
    (q : ℕ × SearchResult) (hfo : firstOccAux d 1 p.2 = some q)
    (hpre : p.1 ≠ "prefilter_info") :
    occsFor d [p] = [(p.1, q)] := by
  simp [occsFor, occOf, hpre, hfo]

/-- Closed-form characterization of `_calculate_focused_rrf_scores`: for an
input whose source names are distinct (a Python dict) and whose per-source
result lists repeat no document, the accumulated entry of each document is
exactly `entrySpec` of its occurrence list. -/
theorem calcFocusedRRFScores_spec (k : ℚ) (weights : List (String × ℚ))
    (input : FusionInput)
    (hnames : (input.map Prod.fst).Nodup)
    (hnd : ∀ p ∈ input, (p.2.map SearchResult.docId).Nodup)
    (d : String) :
    calcFocusedRRFScores k input weights d
      = entrySpec k weights (occsFor d input) := by
  induction input using List.reverseRecOn with
  | nil => rfl
  | append_singleton input p ih =>
    have hnames2 : (input.map Prod.fst).Nodup ∧ p.1 ∉ input.map Prod.fst := by
      rw [List.map_append, List.map_singleton] at hnames
      have h3 := List.nodup_append.mp hnames
      exact ⟨h3.1, fun hmem => h3.2.2 hmem (List.mem_singleton_self _)⟩
    have hnd2 : ∀ q ∈ input, (q.2.map SearchResult.docId).Nodup :=
      fun q hq => hnd q (List.mem_append_left _ hq)
    have ihs := ih hnames2.1 hnd2
    have hocc : occsFor d (input ++ [p]) = occsFor d input ++ occsFor d [p] :=
      List.filterMap_append _ _ _
    have hfold : calcFocusedRRFScores k (input ++ [p]) weights
        = (if p.1 = "prefilter_info" ∨ p.2 = [] then
            calcFocusedRRFScores k input weights
          else procResults k (weightOf weights p.1) p.1 1 p.2
            (calcFocusedRRFScores k input weights)) := by
      unfold calcFocusedRRFScores
      rw [List.foldl_append, List.foldl_cons, List.foldl_nil]
    by_cases hpre : p.1 = "prefilter_info"
    · have hskip : occsFor d [p] = [] := by simp [occsFor, occOf, hpre]
      rw [hfold, if_pos (Or.inl hpre), hocc, hskip, List.append_nil]
      exact ihs
    · by_cases hempty : p.2 = []
      · rw [hfold, if_pos (Or.inr hempty), hocc]
        have hnone2 : occsFor d [p] = [] :=
          occsFor_single_none d p (by rw [hempty]; simp) hpre
        rw [hnone2, List.append_nil]
        exact ihs
      · rw [hfold, if_neg (by push_neg; exact ⟨hpre, hempty⟩), hocc]
        by_cases hdmem : d ∈ p.2.map SearchResult.docId
        · obtain ⟨l1, res, l2, hsplit, hresd, hl1, hl2⟩ :=
            exists_first_split d p.2 hdmem (hnd p (List.mem_append_right _ (List.mem_singleton_self p)))
          have hfo : firstOccAux d 1 p.2 = some (1 + l1.length, res) := by
            rw [hsplit]; exact firstOccAux_append d 1 l1 l2 res hresd hl1
          rw [hsplit, procResults_split k _ p.1 1 l1 l2 res _ d hresd hl1 hl2,
            occsFor_single_some d p (1 + l1.length, res) hfo hpre]
          cases hold : occsFor d input with
          | nil =>
            have hnone : calcFocusedRRFScores k input weights d = none := by
              rw [ihs, hold]; rfl
            rw [stepDoc_apply_none k _ p.1 _ res _ d hresd.symm hnone]
            simp [entrySpec, occContribution]
          | cons o0 rest =>
            have hsome : calcFocusedRRFScores k input weights d
                = some { total := ((o0 :: rest).map (occContribution k weights)).sum,
                         sourceScores :=
                           (o0 :: rest).map (fun o => (o.1, occContribution k weights o)),
                         rankInfo := (o0 :: rest).map (fun o => (o.1, o.2.1)),
                         result := o0.2.2 } := by
              rw [ihs, hold]; rfl
            rw [stepDoc_apply_some k _ p.1 _ res _ d _ hresd.symm hsome]
            have hkeys : ∀ {γ : Type} (f : String × ℕ × SearchResult → γ),
                p.1 ∉ ((o0 :: rest).map (fun o => (o.1, f o))).map Prod.fst := by
              intro γ f hmem2
              simp only [List.map_map, List.mem_map] at hmem2
              obtain ⟨o, ho, hofst⟩ := hmem2
              apply hnames2.2
              rw [← hofst]
              exact occsFor_fst_mem d input o (by rw [hold]; exact ho)
            rw [setEntry_append _ _ _ (hkeys (fun o => occContribution k weights o)),
              setEntry_append _ _ _ (hkeys (fun o => o.2.1))]
            simp only [entrySpec, List.map_append, List.map_cons, List.map_nil,
              List.sum_append, List.sum_cons, List.sum_nil, List.cons_append,
              occContribution, Option.some.injEq]
            ring_nf
        · rw [procResults_not_mem k _ p.1 1 p.2 _ d hdmem, ihs,
            occsFor_single_none d p hdmem hpre, List.append_nil]

lemma posAmp_pos (r : ℕ) : 0 < posAmp r := by
  unfold posAmp
  split_ifs <;> norm_num

lemma posAmp_antitone (ra rb : ℕ) (h1 : 1 ≤ ra) (h : ra ≤ rb) :
    posAmp rb ≤ posAmp ra := by
  unfold posAmp
  split_ifs <;> first | (exfalso; omega) | norm_num

lemma rrfContribution_eq (k w : ℚ) (r : ℕ) (s : ℚ) :
    rrfContribution k w r s = w * s * 10 * (posAmp r * (1 / (k + (r : ℚ)))) := by
  unfold rrfContribution posAmp
  split_ifs <;> ring

lemma den_inv_pos (k : ℚ) (r : ℕ) (hk : 0 ≤ k) (hr : 1 ≤ r) :
    0 < 1 / (k + (r : ℚ)) := by
  apply div_pos one_pos
  have hrq : (1 : ℚ) ≤ (r : ℚ) := by exact_mod_cast hr
  linarith

lemma rrfContribution_nonneg (k w : ℚ) (r : ℕ) (s : ℚ)
    (hk : 0 ≤ k) (hw : 0 ≤ w) (hr : 1 ≤ r) (hs : 0 ≤ s) :
    0 ≤ rrfContribution k w r s := by
  rw [rrfContribution_eq]
  have h1 := posAmp_pos r
  have h2 := den_inv_pos k r hk hr
  have h3 : (0 : ℚ) ≤ 10 := by norm_num
  exact mul_nonneg (mul_nonneg (mul_nonneg hw hs) h3)
    (le_of_lt (mul_pos h1 h2))

lemma rrfAmpDen_lt (k : ℚ) (hk : 0 ≤ k) (ra rb : ℕ) (h1 : 1 ≤ ra)
    (hlt : ra < rb) :
    posAmp rb * (1 / (k + (rb : ℚ))) < posAmp ra * (1 / (k + (ra : ℚ))) := by
  have hinvb : 0 < 1 / (k + (rb : ℚ)) := den_inv_pos k rb hk (by omega)
  have hamp : posAmp rb ≤ posAmp ra := posAmp_antitone ra rb h1 (le_of_lt hlt)
  have hra : (0 : ℚ) < k + (ra : ℚ) := by
    have : (1 : ℚ) ≤ (ra : ℚ) := by exact_mod_cast h1
    linarith
  have hcast : (ra : ℚ) < (rb : ℚ) := by exact_mod_cast hlt
  have hinv : 1 / (k + (rb : ℚ)) < 1 / (k + (ra : ℚ)) :=
    one_div_lt_one_div_of_lt hra (by linarith)
  calc posAmp rb * (1 / (k + (rb : ℚ)))
      ≤ posAmp ra * (1 / (k + (rb : ℚ))) :=
        mul_le_mul_of_nonneg_right hamp (le_of_lt hinvb)
    _ < posAmp ra * (1 / (k + (ra : ℚ))) :=
        mul_lt_mul_of_pos_left hinv (posAmp_pos ra)

lemma rrfContribution_lt (k w : ℚ) (hk : 0 ≤ k) (hw : 0 < w)
    (ra rb : ℕ) (h1 : 1 ≤ ra) (hlt : ra < rb)
    (sa sb : ℚ) (hsb : 0 ≤ sb) (hs : sb < sa) :
    rrfContribution k w rb sb < rrfContribution k w ra sa := by
  rw [rrfContribution_eq, rrfContribution_eq]
  have hga : 0 < posAmp ra * (1 / (k + (ra : ℚ))) :=
    mul_pos (posAmp_pos ra) (den_inv_pos k ra hk h1)
  have hglt := rrfAmpDen_lt k hk ra rb h1 hlt
  have e1 : w * sb * 10 * (posAmp rb * (1 / (k + (rb : ℚ))))
      = (w * 10) * (sb * (posAmp rb * (1 / (k + (rb : ℚ))))) := by ring
  have e2 : w * sa * 10 * (posAmp ra * (1 / (k + (ra : ℚ))))
      = (w * 10) * (sa * (posAmp ra * (1 / (k + (ra : ℚ))))) := by ring
  rw [e1, e2]
  apply mul_lt_mul_of_pos_left _ (by linarith : (0 : ℚ) < w * 10)
  calc sb * (posAmp rb * (1 / (k + (rb : ℚ))))
      ≤ sb * (posAmp ra * (1 / (k + (ra : ℚ)))) :=
        mul_le_mul_of_nonneg_left (le_of_lt hglt) hsb
    _ < sa * (posAmp ra * (1 / (k + (ra : ℚ)))) :=
        mul_lt_mul_of_pos_right hs hga

/-- Strict per-source dominance of `a` over `b` in one ranked list: wherever
`b` occurs, `a` occurs with a strictly smaller rank and a strictly higher
score. -/
def dominatesIn (a b : String) (rs : List SearchResult) : Prop :=
  match firstOccAux b 1 rs with
  | none => True
  | some qb =>
    match firstOccAux a 1 rs with
    | none => False
    | some qa2 => qa2.1 < qb.1 ∧ qb.2.score < qa2.2.score

lemma firstOccAux_isSome (d : String) (rank : ℕ) (rs : List SearchResult)
    (h : d ∈ rs.map SearchResult.docId) :
    ∃ q, firstOccAux d rank rs = some q := by
  induction rs generalizing rank with
  | nil => simp at h
  | cons r rest ih =>
    by_cases hc : r.docId = d
    · exact ⟨(rank, r), by simp [firstOccAux, hc]⟩
    · simp only [List.map_cons, List.mem_cons] at h
      rcases h with h | h
      · exact absurd h.symm hc
      · obtain ⟨q, hq⟩ := ih (rank + 1) h
        exact ⟨q, by simp [firstOccAux, hc, hq]⟩

/-- Per-source contribution of document `d` from one `results_dict` entry. -/
def contribAt (k : ℚ) (weights : List (String × ℚ)) (d : String)
    (p : String × List SearchResult) : ℚ :=
  if p.1 = "prefilter_info" then 0
  else
    match firstOccAux d 1 p.2 with
    | some q => rrfContribution k (weightOf weights p.1) q.1 q.2.score
    | none => 0

lemma occsFor_cons_skip (d : String) (p : String × List SearchResult)
    (rest : FusionInput)
    (h : p.1 = "prefilter_info" ∨ firstOccAux d 1 p.2 = none) :
    occsFor d (p :: rest) = occsFor d rest := by
  rcases h with h | h <;> simp [occsFor, occOf, h]

lemma occsFor_cons_some (d : String) (p : String × List SearchResult)
    (rest : FusionInput) (q : ℕ × SearchResult)
    (hpre : p.1 ≠ "prefilter_info") (hfo : firstOccAux d 1 p.2 = some q) :
    occsFor d (p :: rest) = (p.1, q) :: occsFor d rest := by
  simp [occsFor, occOf, hpre, hfo]

lemma occs_total_eq_sum (k : ℚ) (weights : List (String × ℚ)) (d : String)
    (input : FusionInput) :
    ((occsFor d input).map (occContribution k weights)).sum
      = (input.map (contribAt k weights d)).sum := by
  induction input with
  | nil => rfl
  | cons p rest ih =>
    by_cases hpre : p.1 = "prefilter_info"
    · rw [occsFor_cons_skip d p rest (Or.inl hpre), List.map_cons, List.sum_cons]
      have hzero : contribAt k weights d p = 0 := by
        simp [contribAt, hpre]
      rw [hzero, zero_add]
      exact ih
    · cases hfo : firstOccAux d 1 p.2 with
      | none =>
        rw [occsFor_cons_skip d p rest (Or.inr hfo), List.map_cons, List.sum_cons]
        have hzero : contribAt k weights d p = 0 := by
          simp [contribAt, hpre, hfo]
        rw [hzero, zero_add]
        exact ih
      | some q =>
        rw [occsFor_cons_some d p rest q hpre hfo, List.map_cons, List.sum_cons,
          List.map_cons, List.sum_cons]
        have hcon : contribAt k weights d p
            = rrfContribution k (weightOf weights p.1) q.1 q.2.score := by
          simp [contribAt, hpre, hfo]
        rw [hcon, ih, occContribution]

lemma contribAt_nonneg (k : ℚ) (weights : List (String × ℚ)) (d : String)
    (p : String × List SearchResult) (hk : 0 ≤ k)
    (hwp : 0 < weightOf weights p.1) (hsc : ∀ r ∈ p.2, 0 ≤ r.score) :
    0 ≤ contribAt k weights d p := by
  unfold contribAt
  split_ifs
  · exact le_refl 0
  · cases hfo : firstOccAux d 1 p.2 with
    | none => exact le_refl 0
    | some q =>
      obtain ⟨hm, _, hr⟩ := firstOccAux_mem d 1 p.2 q hfo
      exact rrfContribution_nonneg k _ q.1 q.2.score hk (le_of_lt hwp) hr
        (hsc q.2 hm)

lemma contribAt_le (k : ℚ) (weights : List (String × ℚ)) (a b : String)
    (p : String × List SearchResult) (hk : 0 ≤ k)
    (hwp : 0 < weightOf weights p.1) (hsc : ∀ r ∈ p.2, 0 ≤ r.score)
    (hdom : dominatesIn a b p.2) :
    contribAt k weights b p ≤ contribAt k weights a p := by
  unfold contribAt
  split_ifs
  · exact le_refl 0
  · cases hfo : firstOccAux b 1 p.2 with
    | none =>
      cases hfa : firstOccAux a 1 p.2 with
      | none => exact le_refl 0
      | some q =>
        obtain ⟨hm, _, hr⟩ := firstOccAux_mem a 1 p.2 q hfa
        exact rrfContribution_nonneg k _ q.1 q.2.score hk (le_of_lt hwp) hr
          (hsc q.2 hm)
    | some qb =>
      unfold dominatesIn at hdom
      rw [hfo] at hdom
      cases hfa : firstOccAux a 1 p.2 with
      | none => rw [hfa] at hdom; exact absurd hdom id
      | some qa2 =>
        rw [hfa] at hdom
        obtain ⟨hmb, _, _⟩ := firstOccAux_mem b 1 p.2 qb hfo
        obtain ⟨hma, _, hra⟩ := firstOccAux_mem a 1 p.2 qa2 hfa
        exact le_of_lt (rrfContribution_lt k _ hk hwp qa2.1 qb.1 hra hdom.1
          qa2.2.score qb.2.score (hsc qb.2 hmb) hdom.2)

lemma contribAt_lt (k : ℚ) (weights : List (String × ℚ)) (a b : String)
    (p : String × List SearchResult) (hk : 0 ≤ k)
    (hwp : 0 < weightOf weights p.1) (hsc : ∀ r ∈ p.2, 0 ≤ r.score)
    (hdom : dominatesIn a b p.2) (hpre : p.1 ≠ "prefilter_info")
    (hbmem : b ∈ p.2.map SearchResult.docId) :
    contribAt k weights b p < contribAt k weights a p := by
  unfold contribAt
  rw [if_neg hpre, if_neg hpre]
  obtain ⟨qb, hfo⟩ := firstOccAux_isSome b 1 p.2 hbmem
  rw [hfo]
  unfold dominatesIn at hdom
  rw [hfo] at hdom
  cases hfa : firstOccAux a 1 p.2 with
  | none => rw [hfa] at hdom; exact absurd hdom id
  | some qa2 =>
    rw [hfa] at hdom
    obtain ⟨hmb, _, _⟩ := firstOccAux_mem b 1 p.2 qb hfo
    obtain ⟨hma, _, hra⟩ := firstOccAux_mem a 1 p.2 qa2 hfa
    exact rrfContribution_lt k _ hk hwp qa2.1 qb.1 hra hdom.1
      qa2.2.score qb.2.score (hsc qb.2 hmb) hdom.2

lemma langBoost_nonneg (qa : QueryAnalysis) (sd : ScoreData) :
    0 ≤ langBoost qa sd := by
  unfold langBoost; split_ifs <;> norm_num

lemma langBoost_pos (qa : QueryAnalysis) (sd : ScoreData) :
    0 < langBoost qa sd := by
  unfold langBoost; split_ifs <;> norm_num

lemma langBoost_le (qa : QueryAnalysis) (sda sdb : ScoreData)
    (h : sdb.result.meta.language = some (asciiUpper qa.language) →
      sda.result.meta.language = some (asciiUpper qa.language)) :
    langBoost qa sdb ≤ langBoost qa sda := by
  unfold langBoost
  split_ifs with h1 h2
  · norm_num
  · exact absurd (h h1) h2
  · norm_num
  · norm_num

lemma srcCountBoost_nonneg (n : ℕ) : 0 ≤ srcCountBoost n := by
  unfold srcCountBoost
  split_ifs with h
  · have hc : (2 : ℚ) ≤ (n : ℚ) := by exact_mod_cast h
    linarith
  · norm_num

lemma srcCountBoost_pos (n : ℕ) : 0 < srcCountBoost n := by
  unfold srcCountBoost
  split_ifs with h
  · have hc : (2 : ℚ) ≤ (n : ℚ) := by exact_mod_cast h
    linarith
  · norm_num

lemma srcCountBoost_mono (m n : ℕ) (h : m ≤ n) :
    srcCountBoost m ≤ srcCountBoost n := by
  unfold srcCountBoost
  split_ifs with h1 h2 h2
  · have hc : (m : ℚ) ≤ (n : ℚ) := by exact_mod_cast h
    linarith
  · exfalso; omega
  · have hc : (2 : ℚ) ≤ (n : ℚ) := by exact_mod_cast h2
    linarith
  · norm_num

lemma topRanksBoost_nonneg (n : ℕ) : 0 ≤ topRanksBoost n := by
  unfold topRanksBoost; split_ifs <;> norm_num

lemma topRanksBoost_pos (n : ℕ) : 0 < topRanksBoost n := by
  unfold topRanksBoost; split_ifs <;> norm_num

lemma topRanksBoost_mono (m n : ℕ) (h : m ≤ n) :
    topRanksBoost m ≤ topRanksBoost n := by
  unfold topRanksBoost
  split_ifs <;> first | (exfalso; omega) | norm_num

lemma enrichedBoost_nonneg (sd : ScoreData) : 0 ≤ enrichedBoost sd := by
  unfold enrichedBoost; split_ifs <;> norm_num

lemma enrichedBoost_pos (sd : ScoreData) : 0 < enrichedBoost sd := by
  unfold enrichedBoost; split_ifs <;> norm_num

lemma enrichedBoost_le (sda sdb : ScoreData)
    (h : sdb.result.meta.isFullyEnriched → sda.result.meta.isFullyEnriched) :
    enrichedBoost sdb ≤ enrichedBoost sda := by
  unfold enrichedBoost
  split_ifs with h1 h2
  · norm_num
  · exact absurd (h h1) h2
  · norm_num
  · norm_num

lemma firstPlaceBoost_nonneg (n : ℕ) : 0 ≤ firstPlaceBoost n := by
  unfold firstPlaceBoost; split_ifs <;> norm_num

lemma firstPlaceBoost_pos (n : ℕ) : 0 < firstPlaceBoost n := by
  unfold firstPlaceBoost; split_ifs <;> norm_num

lemma firstPlaceBoost_mono (m n : ℕ) (h : m ≤ n) :
    firstPlaceBoost m ≤ firstPlaceBoost n := by
  unfold firstPlaceBoost
  split_ifs <;> first | (exfalso; omega) | norm_num

lemma boostFactorOf_pos (qa : QueryAnalysis) (sd : ScoreData) :
    0 < boostFactorOf qa sd :=
  mul_pos (mul_pos (mul_pos (mul_pos (langBoost_pos qa sd)
    (srcCountBoost_pos _)) (topRanksBoost_pos _)) (enrichedBoost_pos sd))
    (firstPlaceBoost_pos _)

lemma prod5_le (a1 a2 a3 a4 a5 b1 b2 b3 b4 b5 : ℚ)
    (h1 : a1 ≤ b1) (h2 : a2 ≤ b2) (h3 : a3 ≤ b3) (h4 : a4 ≤ b4) (h5 : a5 ≤ b5)
    (p1 : 0 ≤ a1) (p2 : 0 ≤ a2) (p3 : 0 ≤ a3) (p4 : 0 ≤ a4) (p5 : 0 ≤ a5) :
    a1 * a2 * a3 * a4 * a5 ≤ b1 * b2 * b3 * b4 * b5 := by
  have q1 : 0 ≤ b1 := p1.trans h1
  have q2 : 0 ≤ b2 := p2.trans h2
  have q3 : 0 ≤ b3 := p3.trans h3
  have q4 : 0 ≤ b4 := p4.trans h4
  have h12 : a1 * a2 ≤ b1 * b2 := mul_le_mul h1 h2 p2 q1
  have h123 : a1 * a2 * a3 ≤ b1 * b2 * b3 :=
    mul_le_mul h12 h3 p3 (mul_nonneg q1 q2)
  have h1234 : a1 * a2 * a3 * a4 ≤ b1 * b2 * b3 * b4 :=
    mul_le_mul h123 h4 p4 (mul_nonneg (mul_nonneg q1 q2) q3)
  exact mul_le_mul h1234 h5 p5 (mul_nonneg (mul_nonneg (mul_nonneg q1 q2) q3) q4)

lemma tail_filter_length_le {A B : Type} (x : A) (l : List A)
    (f : A → Option B) (P : B → Bool) :
    ((l.filterMap f).filter P).length ≤ (((x :: l).filterMap f).filter P).length := by
  rw [List.filterMap_cons]
  cases hfx : f x with
  | none => exact le_refl _
  | some av =>
    rw [List.filter_cons]
    cases hP : P av
    · simp
    · simp [Nat.le_succ]

lemma filterMap_filter_length_le {A B : Type} (l : List A)
    (f g : A → Option B) (P Q : B → Bool)
    (h : ∀ x ∈ l, ∀ bv, g x = some bv → Q bv = true →
      ∃ av, f x = some av ∧ P av = true) :
    ((l.filterMap g).filter Q).length ≤ ((l.filterMap f).filter P).length := by
  induction l with
  | nil => exact le_refl _
  | cons x l ih =>
    have ih2 := ih (fun y hy => h y (List.mem_cons_of_mem x hy))
    have hstep := tail_filter_length_le x l f P
    rw [List.filterMap_cons]
    cases hgx : g x with
    | none => exact le_trans ih2 hstep
    | some bv =>
      rw [List.filter_cons]
      cases hQ : Q bv
      · simp only [Bool.false_eq_true, if_false]
        exact le_trans ih2 hstep
      · obtain ⟨av, hfx, hPav⟩ := h x (List.mem_cons_self x l) bv hgx hQ
        rw [List.filterMap_cons, hfx, List.filter_cons, hPav]
        simp only [if_pos trivial, List.length_cons]
        exact Nat.succ_le_succ ih2

lemma filterMap_length_le {A B : Type} (l : List A) (f g : A → Option B)
    (h : ∀ x ∈ l, ∀ bv, g x = some bv → ∃ av, f x = some av) :
    (l.filterMap g).length ≤ (l.filterMap f).length := by
  induction l with
  | nil => exact le_refl _
  | cons x l ih =>
    have ih2 := ih (fun y hy bv hbv => h y (List.mem_cons_of_mem x hy) bv hbv)
    rw [List.filterMap_cons, List.filterMap_cons]
    cases hgx : g x with
    | none =>
      cases hfx : f x with
      | none => exact ih2
      | some av => exact le_trans ih2 (by simp [Nat.le_succ])
    | some bv =>
      obtain ⟨av, hfx⟩ := h x (List.mem_cons_self x l) bv hgx
      rw [hfx]
      simpa using ih2

lemma totalOf_applyBoosts (qa : QueryAnalysis) (st : ScoreMap) (d : String)
    (sd : ScoreData) (h : st d = some sd) :
    totalOf (applyFocusedContextualBoosts qa st) d
      = sd.total * boostFactorOf qa sd := by
  simp [totalOf, applyFocusedContextualBoosts, h]

lemma entrySpec_cons (k : ℚ) (weights : List (String × ℚ))
    (o0 : String × ℕ × SearchResult) (rest : List (String × ℕ × SearchResult)) :
    entrySpec k weights (o0 :: rest)
      = some { total := ((o0 :: rest).map (occContribution k weights)).sum,
               sourceScores :=
                 (o0 :: rest).map (fun o => (o.1, occContribution k weights o)),
               rankInfo := (o0 :: rest).map (fun o => (o.1, o.2.1)),
               result := o0.2.2 } := rfl

lemma occOf_dominated (a b : String) (p : String × List SearchResult)
    (hdom : dominatesIn a b p.2) (ob : String × ℕ × SearchResult)
    (hob : occOf b p = some ob) :
    ∃ oa, occOf a p = some oa ∧ oa.1 = p.1 ∧ oa.2.1 < ob.2.1 ∧
      1 ≤ oa.2.1 ∧ ob.2.2.score < oa.2.2.score := by
  unfold occOf at hob ⊢
  by_cases hpre : p.1 = "prefilter_info"
  · rw [if_pos hpre] at hob
    exact Option.noConfusion hob
  · rw [if_neg hpre] at hob ⊢
    cases hfo : firstOccAux b 1 p.2 with
    | none =>
      rw [hfo] at hob
      exact Option.noConfusion hob
    | some qb =>
      rw [hfo] at hob
      have hob2 : (p.1, qb) = ob := Option.some.inj hob
      unfold dominatesIn at hdom
      rw [hfo] at hdom
      cases hfa : firstOccAux a 1 p.2 with
      | none => rw [hfa] at hdom; exact absurd hdom id
      | some qa2 =>
        rw [hfa] at hdom
        obtain ⟨_, _, hra⟩ := firstOccAux_mem a 1 p.2 qa2 hfa
        refine ⟨(p.1, qa2), rfl, rfl, ?_, hra, ?_⟩
        · rw [← hob2]; exact hdom.1
        · rw [← hob2]; exact hdom.2

lemma occsFor_rank_ge_two (a b : String) (input : FusionInput)
    (hdom : ∀ p ∈ input, dominatesIn a b p.2)
    (ob : String × ℕ × SearchResult) (hob : ob ∈ occsFor b input) :
    2 ≤ ob.2.1 := by
  simp only [occsFor, List.mem_filterMap] at hob
  obtain ⟨p, hp, hpo⟩ := hob
  obtain ⟨oa, _, _, hlt, hge, _⟩ := occOf_dominated a b p (hdom p hp) ob hpo
  omega

lemma boost_le_of_dominated (k : ℚ) (weights : List (String × ℚ))
    (qa : QueryAnalysis) (a b : String) (input : FusionInput)
    (hdom : ∀ p ∈ input, dominatesIn a b p.2)
    (tb ta : ℚ) (resb resa : SearchResult)
    (hlang : resb.meta.language = some (asciiUpper qa.language) →
      resa.meta.language = some (asciiUpper qa.language))
    (henr : resb.meta.isFullyEnriched → resa.meta.isFullyEnriched) :
    boostFactorOf qa
      { total := tb,
        sourceScores := (occsFor b input).map (fun o => (o.1, occContribution k weights o)),
        rankInfo := (occsFor b input).map (fun o => (o.1, o.2.1)),
        result := resb }
    ≤ boostFactorOf qa
      { total := ta,
        sourceScores := (occsFor a input).map (fun o => (o.1, occContribution k weights o)),
        rankInfo := (occsFor a input).map (fun o => (o.1, o.2.1)),
        result := resa } := by
  unfold boostFactorOf occsFor
  apply prod5_le
  · exact langBoost_le qa _ _ hlang
  · simp only [List.length_map]
    apply srcCountBoost_mono
    apply filterMap_length_le input (occOf a) (occOf b)
    intro p hp bv hbv
    obtain ⟨oa, hoa, _, _, _, _⟩ := occOf_dominated a b p (hdom p hp) bv hbv
    exact ⟨oa, hoa⟩
  · rw [List.filter_map, List.filter_map, List.length_map, List.length_map]
    apply topRanksBoost_mono
    apply filterMap_filter_length_le input (occOf a) (occOf b)
    intro p hp bv hbv hQ
    obtain ⟨oa, hoa, _, hlt, _, _⟩ := occOf_dominated a b p (hdom p hp) bv hbv
    refine ⟨oa, hoa, ?_⟩
    simp only [Function.comp_apply, decide_eq_true_eq] at hQ ⊢
    omega
  · exact enrichedBoost_le _ _ henr
  · rw [List.filter_map, List.length_map]
    have hzero : ((List.filterMap (occOf b) input).filter
        ((fun pr => decide (pr.2 = 1)) ∘ (fun o => (o.1, o.2.1)))).length = 0 := by
      rw [List.length_eq_zero, List.filter_eq_nil_iff]
      intro o ho
      have h2 := occsFor_rank_ge_two a b input hdom o ho
      simp only [Function.comp_apply, decide_eq_true_eq]
      omega
    rw [hzero]
    exact firstPlaceBoost_mono 0 _ (Nat.zero_le _)
  · exact langBoost_nonneg qa _
  · exact srcCountBoost_nonneg _
  · exact topRanksBoost_nonneg _
  · exact enrichedBoost_nonneg _
  · exact firstPlaceBoost_nonneg _

/-- Claim C3 (amended): in clean fusion, if document `a` appears in every
source `b` appears in, with a strictly smaller rank and a strictly higher
normalized score there, then `a`'s post-boost total is strictly higher than
`b`'s — PROVIDED the normalized scores are nonnegative, the per-source
weights positive, and `b` carries no metadata-derived boost (payload
language match with the query, `is_fully_enriched`) that `a` lacks.  As
frozen, without the metadata proviso, the claim is false — see
`fusion_monotonicity_claim_counterexample`. -/
theorem fusion_dominance_monotonicity
    (k : ℚ) (qa : QueryAnalysis) (input : FusionInput)
    (weights : List (String × ℚ)) (a b : String)
    (hk : 0 ≤ k)
    (hnames : (input.map Prod.fst).Nodup)
    (hnd : ∀ p ∈ input, (p.2.map SearchResult.docId).Nodup)
    (hscores : ∀ p ∈ input, ∀ r ∈ p.2, 0 ≤ r.score)
    (hw : ∀ p ∈ input, 0 < weightOf weights p.1)
    (hdom : ∀ p ∈ input, dominatesIn a b p.2)
    (hb : ∃ p ∈ input, p.1 ≠ "prefilter_info" ∧ b ∈ p.2.map SearchResult.docId)
    (hmeta : ∀ p ∈ input, ∀ rb ∈ p.2, rb.docId = b →
      ∀ q ∈ input, ∀ ra ∈ q.2, ra.docId = a →
        (rb.meta.language = some (asciiUpper qa.language) →
          ra.meta.language = some (asciiUpper qa.language)) ∧
        (rb.meta.isFullyEnriched → ra.meta.isFullyEnriched)) :
    totalOf (applyFocusedContextualBoosts qa (calcFocusedRRFScores k input weights)) b
      < totalOf (applyFocusedContextualBoosts qa (calcFocusedRRFScores k input weights)) a := by
  have specB := calcFocusedRRFScores_spec k weights input hnames hnd b
  have specA := calcFocusedRRFScores_spec k weights input hnames hnd a
  obtain ⟨p0, hp0, hp0pre, hp0mem⟩ := hb
  obtain ⟨qb0, hqb0⟩ := firstOccAux_isSome b 1 p0.2 hp0mem
  have hob0 : occOf b p0 = some (p0.1, qb0) := by
    unfold occOf
    rw [if_neg hp0pre, hqb0]
    rfl
  have hmemB : (p0.1, qb0) ∈ occsFor b input :=
    List.mem_filterMap.mpr ⟨p0, hp0, hob0⟩
  obtain ⟨oa0x, hoa0x, _, _, _, _⟩ := occOf_dominated a b p0 (hdom p0 hp0) _ hob0
  have hmemA : oa0x ∈ occsFor a input := List.mem_filterMap.mpr ⟨p0, hp0, hoa0x⟩
  cases hOB : occsFor b input with
  | nil => rw [hOB] at hmemB; exact absurd hmemB (List.not_mem_nil _)
  | cons ob0 obrest =>
    cases hOA : occsFor a input with
    | nil => rw [hOA] at hmemA; exact absurd hmemA (List.not_mem_nil _)
    | cons oa0 oarest =>
      have hEB : calcFocusedRRFScores k input weights b
          = some { total := ((ob0 :: obrest).map (occContribution k weights)).sum,
                   sourceScores :=
                     (ob0 :: obrest).map (fun o => (o.1, occContribution k weights o)),
                   rankInfo := (ob0 :: obrest).map (fun o => (o.1, o.2.1)),
                   result := ob0.2.2 } := by
        rw [specB, hOB, entrySpec_cons]
      have hEA : calcFocusedRRFScores k input weights a
          = some { total := ((oa0 :: oarest).map (occContribution k weights)).sum,
                   sourceScores :=
                     (oa0 :: oarest).map (fun o => (o.1, occContribution k weights o)),
                   rankInfo := (oa0 :: oarest).map (fun o => (o.1, o.2.1)),
                   result := oa0.2.2 } := by
        rw [specA, hOA, entrySpec_cons]
      rw [totalOf_applyBoosts qa (calcFocusedRRFScores k input weights) b _ hEB,
        totalOf_applyBoosts qa (calcFocusedRRFScores k input weights) a _ hEA,
        ← hOB, ← hOA]
      have hTlt : ((occsFor b input).map (occContribution k weights)).sum
          < ((occsFor a input).map (occContribution k weights)).sum := by
        rw [occs_total_eq_sum, occs_total_eq_sum]
        refine List.sum_lt_sum _ _ ?_ ⟨p0, hp0, ?_⟩
        · intro p hp
          exact contribAt_le k weights a b p hk (hw p hp) (hscores p hp) (hdom p hp)
        · exact contribAt_lt k weights a b p0 hk (hw p0 hp0) (hscores p0 hp0)
            (hdom p0 hp0) hp0pre hp0mem
      have hTnn : 0 ≤ ((occsFor b input).map (occContribution k weights)).sum := by
        rw [occs_total_eq_sum]
        apply List.sum_nonneg
        intro x hx
        obtain ⟨p, hp, rfl⟩ := List.mem_map.mp hx
        exact contribAt_nonneg k weights b p hk (hw p hp) (hscores p hp)
      have hobm : ob0 ∈ occsFor b input := by
        rw [hOB]; exact List.mem_cons_self _ _
      have hoam : oa0 ∈ occsFor a input := by
        rw [hOA]; exact List.mem_cons_self _ _
      obtain ⟨pb, hpb, hobmem, hobdoc, _⟩ := occsFor_mem_source b input ob0 hobm
      obtain ⟨pa, hpa, hoamem, hoadoc, _⟩ := occsFor_mem_source a input oa0 hoam
      have hml := hmeta pb hpb ob0.2.2 hobmem hobdoc pa hpa oa0.2.2 hoamem hoadoc
      have hboost := boost_le_of_dominated k weights qa a b input hdom
        (((occsFor b input).map (occContribution k weights)).sum)
        (((occsFor a input).map (occContribution k weights)).sum)
        ob0.2.2 oa0.2.2 hml.1 hml.2
      calc ((occsFor b input).map (occContribution k weights)).sum
            * boostFactorOf qa
              { total := ((occsFor b input).map (occContribution k weights)).sum,
                sourceScores :=
                  (occsFor b input).map (fun o => (o.1, occContribution k weights o)),
                rankInfo := (occsFor b input).map (fun o => (o.1, o.2.1)),
                result := ob0.2.2 }
          ≤ ((occsFor b input).map (occContribution k weights)).sum
            * boostFactorOf qa
              { total := ((occsFor a input).map (occContribution k weights)).sum,
                sourceScores :=
                  (occsFor a input).map (fun o => (o.1, occContribution k weights o)),
                rankInfo := (occsFor a input).map (fun o => (o.1, o.2.1)),
                result := oa0.2.2 } := mul_le_mul_of_nonneg_left hboost hTnn
        _ < ((occsFor a input).map (occContribution k weights)).sum
            * boostFactorOf qa
              { total := ((occsFor a input).map (occContribution k weights)).sum,
                sourceScores :=
                  (occsFor a input).map (fun o => (o.1, occContribution k weights o)),
                rankInfo := (occsFor a input).map (fun o => (o.1, o.2.1)),
                result := oa0.2.2 } :=
            mul_lt_mul_of_pos_right hTlt (boostFactorOf_pos qa _)

/-- A concrete raw fusion input: one `dense_focused` source with five
documents.  `d5` is ranked last with the lowest score, but its payload
language matches the query and it is fully enriched; `d4` is ranked fourth
with a higher score and has neither boost flag. -/
def exRawInput : FusionInput :=
  [("dense_focused",
    [ { docId := "d1", score := 0, meta := { language := none, isFullyEnriched := false } },
      { docId := "d2", score := 0, meta := { language := none, isFullyEnriched := false } },
      { docId := "d3", score := 1, meta := { language := none, isFullyEnriched := false } },
      { docId := "d4", score := 8/25, meta := { language := none, isFullyEnriched := false } },
      { docId := "d5", score := 3/10, meta := { language := some "RU", isFullyEnriched := true } } ])]

def exQA : QueryAnalysis := { language := "ru" }

/-- The normalized scores of `exRawInput` under the dense min-max
normalisation into [0.3, 1.0]: the positive scores span exactly [0.3, 1],
so the positive scores are fixed and the non-positive ones become 0. -/
def exNormInput : FusionInput :=
  [("dense_focused",
    [ { docId := "d1", score := 0, meta := { language := none, isFullyEnriched := false } },
      { docId := "d2", score := 0, meta := { language := none, isFullyEnriched := false } },
      { docId := "d3", score := 1, meta := { language := none, isFullyEnriched := false } },
      { docId := "d4", score := 8/25, meta := { language := none, isFullyEnriched := false } },
      { docId := "d5", score := 3/10, meta := { language := some "RU", isFullyEnriched := true } } ])]

lemma exNorm_eq : normalizeFocusedScores exRawInput = exNormInput := by
  have hc1 : strContains "dense_focused" "bm25" = false := by decide
  have hc2 : strContains "dense_focused" "dense" = true := by decide
  simp [normalizeFocusedScores, normalizeSource, exRawInput, exNormInput,
    hc1, hc2, qMax, qMin, max_def, min_def]
  norm_num

/-- Claim C3, as frozen, is false: in the clean-fusion pipeline run by the
orchestrator (k = 60, focused weights) on `exRawInput`, document `d4`
strictly dominates `d5` in the fusion input (present in the only source,
rank 4 < 5, normalized score 8/25 > 3/10), yet `d5`'s post-boost total
(3/65 × 1.2 × 1.1 = 99/1625) strictly exceeds `d4`'s (1/20), because `d5`
receives the language-match and enrichment boosts. -/
theorem fusion_monotonicity_claim_counterexample :
    (∀ p ∈ normalizeFocusedScores exRawInput, dominatesIn "d4" "d5" p.2) ∧
    totalOf (cleanFusionScores (hybridRrfK []) exQA exRawInput) "d4"
      < totalOf (cleanFusionScores (hybridRrfK []) exQA exRawInput) "d5" := by
  constructor
  · rw [exNorm_eq]
    intro p hp
    simp only [exNormInput, List.mem_singleton] at hp
    subst hp
    simp [dominatesIn, firstOccAux]
    norm_num
  · unfold cleanFusionScores
    rw [exNorm_eq]
    have hup : asciiUpper "ru" = "RU" := by decide
    simp [exNormInput, exRawInput, exQA, hybridRrfK, calcFocusedWeights,
      baseWeight, getA, weightOf, calcFocusedRRFScores, procResults, stepDoc,
      setEntry, rrfContribution, applyFocusedContextualBoosts, boostFactorOf,
      langBoost, srcCountBoost, topRanksBoost, enrichedBoost, firstPlaceBoost,
      totalOf, hup]
    norm_num

def wSrc : String × List SearchResult :=
  ("dense_focused",
    [ { docId := "a", score := 1, meta := { language := none, isFullyEnriched := false } },
      { docId := "b", score := 1/2, meta := { language := none, isFullyEnriched := false } } ])

def wInput : FusionInput := [wSrc]

def wWeights : List (String × ℚ) := [("dense_focused", 1)]

def wQA : QueryAnalysis := { language := "en" }

/-- Witness for `fusion_dominance_monotonicity` at a concrete input. -/
theorem fusion_dominance_monotonicity_witness :
    totalOf (applyFocusedContextualBoosts wQA
      (calcFocusedRRFScores 60 wInput wWeights)) "b"
      < totalOf (applyFocusedContextualBoosts wQA
        (calcFocusedRRFScores 60 wInput wWeights)) "a" :=
  fusion_dominance_monotonicity 60 wQA wInput wWeights "a" "b"
    (by norm_num)
    (by simp [wInput, wSrc])
    (by intro p hp; simp only [wInput, List.mem_singleton] at hp; subst hp; simp [wSrc])
    (by
      intro p hp r hr
      simp only [wInput, List.mem_singleton] at hp
      subst hp
      simp only [wSrc, List.mem_cons, List.mem_singleton, List.not_mem_nil, or_false] at hr
      rcases hr with rfl | rfl <;> norm_num)
    (by
      intro p hp
      simp only [wInput, List.mem_singleton] at hp
      subst hp
      simp [wSrc, wWeights, weightOf, getA])
    (by
      intro p hp
      simp only [wInput, List.mem_singleton] at hp
      subst hp
      simp [wSrc, dominatesIn, firstOccAux]
      norm_num)
    ⟨wSrc, List.mem_cons_self wSrc [], by simp [wSrc], by simp [wSrc]⟩
    (by
      intro p hp rb hrb hrbd q hq ra hra hrad
      simp only [wInput, List.mem_singleton] at hp hq
      subst hp
      subst hq
      simp only [wSrc, List.mem_cons, List.mem_singleton, List.not_mem_nil, or_false] at hrb hra
      rcases hrb with rfl | rfl <;> rcases hra with rfl | rfl <;> simp)

/-- Claim C2, as frozen, is false for the engine as the hybrid orchestrator
instantiates it: `HybridSearchEngine.__init__` passes
`k = config.get('rrf_k', 60)` and no caller in the repository configures
`rrf_k`, so `k = 60`, not 3.  At weight 1, rank 1, normalized score 1 the
code contributes `1 * (1/(60+1)) * 1 * 10 * 3 = 30/61`, while the claimed
formula with `k = 3` gives `3 * (1 * 10 * 1 / (3 + 1)) = 15/2`. -/
theorem rrf_contribution_claim_counterexample :
    rrfContribution (hybridRrfK []) 1 1 1 ≠ posAmp 1 * (1 * 10 * 1 / (3 + (1 : ℚ))) := by
  simp only [rrfContribution, hybridRrfK, posAmp, getA]
  norm_num

/-- Claim C2 (amended): in clean fusion as instantiated and invoked by the
hybrid orchestrator, each (source, document, rank) contribution equals
`weight * 10 * normalized_score / (k + rank)` with `k = 60` (the
orchestrator passes `config.get('rrf_k', 60)` and no caller sets `rrf_k`),
additionally multiplied by 3 / 2 / 1.5 at ranks 1 / 2 / 3.  The
`_calculate_focused_rrf_scores` loop adds exactly `rrfContribution` per
(source, document, rank) triple (see `calcFocusedRRFScores_spec`). -/
theorem rrf_contribution_formula (w s : ℚ) (rank : ℕ) :
    rrfContribution (hybridRrfK []) w rank s
      = posAmp rank * (w * 10 * s / (60 + (rank : ℚ))) := by
  have hk : hybridRrfK [] = 60 := rfl
  rw [hk]
  unfold rrfContribution posAmp
  split_ifs <;> ring

end Fusion

namespace BM25

/-- The payload fields `BM25Engine._create_weighted_text` reads. -/
structure DocPayload where
  name : String
  description : String
  location : String
  category : String
  deriving DecidableEq

/-- A candidate document handed to `search_within_candidates`. -/
structure CandDoc where
  id : String
  payload : DocPayload
  deriving DecidableEq

/-- A BM25 search result (`SearchResult` restricted to the fields this
engine fills and the claim reads). -/
structure Result where
  docId : String
  score : ℚ
  source : String
  deriving DecidableEq

/-- `_cache_ttl` (1 hour) and `_cache_max_size` (500 entries). -/
def cacheTtl : ℕ := 3600

def cacheMaxSize : ℕ := 500

/-- Engine state: the `_results_cache` dict (key to results plus timestamp,
in insertion order) and the current clock in whole seconds. -/
structure EngineState where
  cache : List (String × (List Result × ℕ))
  now : ℕ

/-- ASCII lower-casing (Python `str.lower` on the ASCII text used here). -/
def asciiLower (s : String) : String := String.mk (s.data.map Char.toLower)

/-- `_create_weighted_text`: repeat each non-empty field `int(weight)` times
(`int` truncates, so category's 1.5 becomes 1) in the dict order name,
description, location, category, joined by spaces. -/
def createWeightedText (p : DocPayload) : String :=
  String.intercalate " "
    ((if p.name ≠ "" then List.replicate 3 p.name else [])
      ++ (if p.description ≠ "" then List.replicate 1 p.description else [])
      ++ (if p.location ≠ "" then List.replicate 2 p.location else [])
      ++ (if p.category ≠ "" then List.replicate 1 p.category else []))

/-- `_tokenize_mixed`: lower-case whitespace split keeping words longer
than 2 (Python `split()` drops empty pieces). -/
def tokenizeMixed (text : String) : List String :=
  (((asciiLower text).split (fun c => c = ' ')).filter (fun w => w ≠ "")).filter
    (fun w => 2 < w.length)

/-- `_create_cache_key`: `"bm25:" + md5("bm25:" + semantic_query.lower().strip()).hexdigest()`.
MD5 is an external primitive, abstracted as `md5hex`. -/
def createCacheKey (md5hex : String → String) (semanticQuery : String) : String :=
  "bm25:" ++ md5hex ("bm25:" ++ ((asciiLower semanticQuery).trim))

def removeKey (cache : List (String × (List Result × ℕ))) (key : String) :
    List (String × (List Result × ℕ)) :=
  cache.filter (fun p => p.1 ≠ key)

/-- `_get_from_cache`: a present entry older than the TTL is deleted and
reported as a miss; a fresh entry is returned as is.  (The hit/miss counters
are not modelled.) -/
def getFromCache (st : EngineState) (key : String) :
    Option (List Result) × EngineState :=
  match Fusion.getA st.cache key with
  | none => (none, st)
  | some (results, ts) =>
    if cacheTtl < st.now - ts then (none, { st with cache := removeKey st.cache key })
    else (some results, st)

/-- `_save_to_cache`: at 500 entries the entry with the smallest timestamp
(first such in dict order, as Python `min` ties) is evicted first. -/
def evictOldest (cache : List (String × (List Result × ℕ))) :
    List (String × (List Result × ℕ)) :=
  match cache with
  | [] => []
  | c0 :: _ =>
    removeKey cache (cache.foldl (fun acc p => if p.2.2 < acc.2.2 then p else acc) c0).1

def saveToCache (st : EngineState) (key : String) (results : List Result) :
    EngineState :=
  let cache1 := if cacheMaxSize ≤ st.cache.length then evictOldest st.cache else st.cache
  { st with cache := Fusion.setEntry cache1 key (results, st.now) }

/-- Insert a result into a list sorted by descending score (used to model
Python's stable `sort(key=score, reverse=True)`). -/
def insertByScore (r : Result) : List Result → List Result
  | [] => [r]
  | x :: xs => if x.score < r.score then r :: x :: xs else x :: insertByScore r xs

/-- Stable descending sort by score. -/
def sortByScoreDesc (l : List Result) : List Result :=
  l.foldr insertByScore []

/-- `_simple_keyword_match`: count the keywords occurring as substrings of
the lower-cased weighted text, score `matches / |keywords| * 10`, keep only
matched documents, sort by score descending, truncate to `top_k`. -/
def simpleKeywordMatch (keywords : List String) (candidateDocs : List CandDoc)
    (topK : ℕ) : List Result :=
  let results := candidateDocs.filterMap (fun doc =>
    let searchText := asciiLower (createWeightedText doc.payload)
    let nMatches :=
      (keywords.filter (fun kw => Fusion.strContains searchText (asciiLower kw))).length
    if 0 < nMatches then
      some { docId := doc.id,
             score := ((nMatches : ℚ) / (keywords.length : ℚ)) * 10,
             source := "bm25_simple_match" }
    else none)
  (sortByScoreDesc results).take topK

/-- The non-cached part of `search_within_candidates` after the cache
lookup: build the per-language token corpus, fall back to simple matching
for corpora of at most 5 documents (without writing the cache), otherwise
score with the external BM25 library (`bm25Scores` abstracts
`BM25Okapi(...).get_scores`; `npArgsortRev` abstracts
`np.argsort(scores)[::-1]`), apply the adaptive threshold, fall back to
simple matching on an empty result, and cache a non-empty result when a
cache key exists.  The Russian and English tokenizers wrap external
libraries (pymorphy2, snowball) and are abstract. -/
def missSearch (tokenizeRu tokenizeEn : String → List String)
    (bm25Scores : List (List String) → List String → List ℚ)
    (npArgsortRev : List ℚ → List ℕ)
    (st : EngineState) (keywords : List String) (candidateDocs : List CandDoc)
    (language : String) (topK : ℕ) (cacheKey : Option String) :
    List Result × EngineState :=
  let pairs := candidateDocs.filterMap (fun doc =>
    let text := createWeightedText doc.payload
    let tokens :=
      if language = "ru" then tokenizeRu text
      else if language = "en" then tokenizeEn text
      else tokenizeMixed text
    if tokens = [] then none else some (tokens, doc))
  let tempCorpus := pairs.map Prod.fst
  let docMapping := pairs.map Prod.snd
  if tempCorpus = [] then ([], st)
  else if tempCorpus.length ≤ 5 then
    (simpleKeywordMatch keywords candidateDocs topK, st)
  else
    let scores := bm25Scores tempCorpus keywords
    let thr : ℚ := if tempCorpus.length ≤ 20 then -(1/2) else 0
    let results := ((npArgsortRev scores).take topK).filterMap (fun idx =>
      match scores.get? idx, docMapping.get? idx with
      | some sc, some doc =>
        if thr < sc then
          some { docId := doc.id, score := sc, source := "bm25_focused" }
        else none
      | _, _ => none)
    let results2 :=
      if results = [] then simpleKeywordMatch keywords candidateDocs topK
      else results
    match cacheKey with
    | some key =>
      if results2 ≠ [] then (results2, saveToCache st key results2)
      else (results2, st)
    | none => (results2, st)

/-- The branch on the cache-lookup outcome inside
`search_within_candidates`: a hit returns the cached list unchanged, a miss
continues with the non-cached search under the same cache key. -/
def cacheStep (tokenizeRu tokenizeEn : String → List String)
    (bm25Scores : List (List String) → List String → List ℚ)
    (npArgsortRev : List ℚ → List ℕ)
    (keywords : List String) (candidateDocs : List CandDoc)
    (language : String) (topK : ℕ) (key : String)
    (lookupRes : Option (List Result) × EngineState) :
    List Result × EngineState :=
  match lookupRes with
  | (some cached, st1) => (cached, st1)
  | (none, st1) =>
    missSearch tokenizeRu tokenizeEn bm25Scores npArgsortRev st1 keywords
      candidateDocs language topK (some key)

/-- `BM25Engine.search_within_candidates`: empty guard, cache lookup keyed
only by the semantic query, then the non-cached search. -/
def searchWithinCandidates (md5hex : String → String)
    (tokenizeRu tokenizeEn : String → List String)
    (bm25Scores : List (List String) → List String → List ℚ)
    (npArgsortRev : List ℚ → List ℕ)
    (st : EngineState) (keywords : List String) (candidateDocs : List CandDoc)
    (language : String) (topK : ℕ) (semanticQuery : Option String) :
    List Result × EngineState :=
  if candidateDocs = [] ∨ keywords = [] then ([], st)
  else
    match semanticQuery with
    | some q =>
      cacheStep tokenizeRu tokenizeEn bm25Scores npArgsortRev keywords
        candidateDocs language topK (createCacheKey md5hex q)
        (getFromCache st (createCacheKey md5hex q))
    | none =>
      missSearch tokenizeRu tokenizeEn bm25Scores npArgsortRev st keywords
        candidateDocs language topK none

/-- Claim C4 (amended): when a fresh (non-expired) cache entry exists for
the semantic query, `search_within_candidates` returns the cached ranked
list UNCHANGED; it is never restricted to the current candidate set, even
when that set differs from the one the entry was computed over (the cache
entry does not record any candidate set). -/
theorem bm25_cache_hit_returns_cached (md5hex : String → String)
    (tokenizeRu tokenizeEn : String → List String)
    (bm25Scores : List (List String) → List String → List ℚ)
    (npArgsortRev : List ℚ → List ℕ)
    (st : EngineState) (keywords : List String) (candidateDocs : List CandDoc)
    (language : String) (topK : ℕ) (q : String)
    (results : List Result) (ts : ℕ)
    (hdocs : candidateDocs ≠ []) (hkw : keywords ≠ [])
    (hentry : Fusion.getA st.cache (createCacheKey md5hex q) = some (results, ts))
    (hfresh : ¬ cacheTtl < st.now - ts) :
    (searchWithinCandidates md5hex tokenizeRu tokenizeEn bm25Scores npArgsortRev
      st keywords candidateDocs language topK (some q)).1 = results := by
  have hg : getFromCache st (createCacheKey md5hex q) = (some results, st) := by
    unfold getFromCache
    rw [hentry]
    show (if cacheTtl < st.now - ts then
        ((none : Option (List Result)),
          { st with cache := removeKey st.cache (createCacheKey md5hex q) })
      else (some results, st)) = (some results, st)
    rw [if_neg hfresh]
  unfold searchWithinCandidates
  rw [if_neg (by push_neg; exact ⟨hdocs, hkw⟩)]
  show (cacheStep tokenizeRu tokenizeEn bm25Scores npArgsortRev keywords
    candidateDocs language topK (createCacheKey md5hex q)
    (getFromCache st (createCacheKey md5hex q))).1 = results
  rw [hg]
  rfl

def exCachedResult : Result := { docId := "1", score := 5, source := "bm25_focused" }

/-- An engine state whose cache holds, for the query key of "q" (with the
MD5 primitive instantiated as the identity), a fresh result over document
"1". -/
def exSt : EngineState :=
  { cache := [(createCacheKey (fun s => s) "q", ([exCachedResult], 0))], now := 0 }

def exDoc : CandDoc :=
  { id := "2", payload := { name := "x", description := "", location := "", category := "" } }

/-- Claim C4, as frozen, is false: with a fresh cache entry computed over
document "1" and a current candidate set containing only document "2", the
call returns the cached list itself, which is NOT the cached result
restricted to the current candidate set (that restriction would be empty).
The hash primitive is instantiated as the identity; the cache-hit path
never evaluates it beyond key equality. -/
theorem bm25_cache_claim_counterexample :
    (searchWithinCandidates (fun s => s) (fun _ => []) (fun _ => [])
        (fun _ _ => []) (fun _ => []) exSt ["tele"] [exDoc] "en" 10
        (some "q")).1 = [exCachedResult] ∧
    [exCachedResult].filter (fun r => [exDoc].map CandDoc.id |>.contains r.docId)
      = [] := by
  constructor
  · rw [bm25_cache_hit_returns_cached (fun s => s) (fun _ => []) (fun _ => [])
      (fun _ _ => []) (fun _ => []) exSt ["tele"] [exDoc] "en" 10 "q"
      [exCachedResult] 0 (by simp) (by simp) (by simp [exSt, Fusion.getA])
      (by decide)]
  · simp [exCachedResult, exDoc]

/-- Witness for `bm25_cache_hit_returns_cached` at the concrete state. -/
theorem bm25_cache_hit_returns_cached_witness :
    (searchWithinCandidates (fun s => s) (fun _ => []) (fun _ => [])
        (fun _ _ => []) (fun _ => []) exSt ["tele"] [exDoc] "en" 10
        (some "q")).1 = [exCachedResult] :=
  bm25_cache_hit_returns_cached (fun s => s) (fun _ => []) (fun _ => [])
    (fun _ _ => []) (fun _ => []) exSt ["tele"] [exDoc] "en" 10 "q"
    [exCachedResult] 0 (by simp) (by simp) (by simp [exSt, Fusion.getA])
    (by decide)

end BM25

namespace PreFilter

/-- A filter condition from `QueryAnalysis.qdrant_filters`.
`_create_adaptive_filter` only distinguishes conditions having
`.match.text` (text conditions) from everything else, and reads `key`. -/
inductive QCondition where
  | textCond (key : String) (text : String)
  | otherCond (key : String)
  deriving DecidableEq

def QCondition.key : QCondition → String
  | .textCond k _ => k
  | .otherCond k => k

/-- A built Qdrant filter: `should` (OR) case-insensitive text clauses
(key with `MatchAny` case variants) and `must` (AND) boolean clauses. -/
structure BuiltFilter where
  shouldClauses : List (String × List String)
  mustClauses : List QCondition
  deriving DecidableEq

/-- Python `str.title()` over ASCII: a letter is upper-cased when the
previous character is not a letter, lower-cased otherwise. -/
def pyTitle (s : String) : String :=
  String.mk (s.data.foldl
    (fun (acc : List Char × Bool) c =>
      (acc.1 ++ [if acc.2 then c.toLower else c.toUpper], c.isAlpha))
    ([], false)).1

/-- `_create_case_insensitive_variants`: `[lower, title, upper]` through
`list(set(...))`, modelled as first-occurrence dedup (Python set iteration
order is unspecified; none of the claims depends on the order). -/
def caseVariants (text : String) : List String :=
  if text = "" then []
  else [BM25.asciiLower text, pyTitle text, Fusion.asciiUpper text].dedup

/-- The part of `QueryAnalysis` the prefilter reads. -/
structure QueryAnalysis where
  originalQuery : String
  semanticQuery : String
  filterStrategy : String
  qdrantFilters : List QCondition

/-- The prefilter result record (`search_time` and `filter_details` /
`case_insensitive` diagnostics are not modelled; the error record carries no
`original_count` in Python, modelled as 0). -/
structure PFResult where
  candidates : List String
  count : ℕ
  strategyUsed : String
  filtersApplied : ℕ
  fallbackUsed : Bool
  originalCount : ℕ
  error : Option String
  deriving DecidableEq

/-- `_create_adaptive_filter`: wrap text conditions as case-insensitive
`MatchAny` variants; every strategy keeps all text filters; `strict` keeps
all boolean filters, `moderate` keeps the priority keys
{is_religious_site, is_nature_tourism, is_historical_site, language},
anything else (`loose`) keeps {is_religious_site, language}.  Text clauses
are combined with OR (`should`), boolean clauses with AND (`must`); with no
selected clause, or no condition at all, no filter is built. -/
def createAdaptiveFilter (filters : List QCondition) (strategy : String) :
    Option BuiltFilter :=
  if filters = [] then none
  else
    let textFs := filters.filterMap (fun f =>
      match f with
      | .textCond k t => some (k, caseVariants t)
      | .otherCond _ => none)
    let boolFs := filters.filter (fun f =>
      match f with
      | .textCond _ _ => false
      | .otherCond _ => true)
    let selBool :=
      if strategy = "strict" then boolFs
      else if strategy = "moderate" then
        boolFs.filter (fun f => f.key = "is_religious_site"
          ∨ f.key = "is_nature_tourism" ∨ f.key = "is_historical_site"
          ∨ f.key = "language")
      else
        boolFs.filter (fun f => f.key = "is_religious_site" ∨ f.key = "language")
    if textFs ≠ [] ∧ selBool ≠ [] then some { shouldClauses := textFs, mustClauses := selBool }
    else if textFs ≠ [] then some { shouldClauses := textFs, mustClauses := [] }
    else if selBool ≠ [] then some { shouldClauses := [], mustClauses := selBool }
    else none

/-- Second fallback rung of `_apply_fallback_strategy`: retry with no
filter at all; a raised exception returns the original record. -/
def noFilterRung (originalResult : PFResult) :
    Except String (List String) → PFResult
  | .error _ => originalResult
  | .ok fcands2 =>
    { candidates := fcands2, count := fcands2.length,
      strategyUsed := "no_filters_fallback", filtersApplied := 0,
      fallbackUsed := true, originalCount := originalResult.count,
      error := none }

/-- First fallback rung of `_apply_fallback_strategy`: keep the loose
retry when it found at least 2 candidates, otherwise drop to the
no-filter rung. -/
def looseRung (searchFn : Option BuiltFilter → Except String (List String))
    (qa : QueryAnalysis) (originalResult : PFResult) :
    Except String (List String) → PFResult
  | .error _ => originalResult
  | .ok fcands =>
    if fcands.length < 2 then noFilterRung originalResult (searchFn none)
    else
      { candidates := fcands, count := fcands.length,
        strategyUsed := "loose_fallback",
        filtersApplied :=
          (match createAdaptiveFilter qa.qdrantFilters "loose" with
           | some f => f.mustClauses.length + f.shouldClauses.length
           | none => 0),
        fallbackUsed := true, originalCount := originalResult.count,
        error := none }

/-- `_apply_fallback_strategy`, with `client.search` (plus the query
embedding) abstracted as `searchFn : filter to list of ids or error`; the
server applies the `max_candidates` limit.  A raised exception anywhere in
the fallback returns the original (pre-fallback) result record. -/
def applyFallbackStrategy (searchFn : Option BuiltFilter → Except String (List String))
    (qa : QueryAnalysis) (originalResult : PFResult) : PFResult :=
  looseRung searchFn qa originalResult
    (searchFn (createAdaptiveFilter qa.qdrantFilters "loose"))

/-- `PreFilterEngine.get_filtered_candidates` on a memo-cache miss (the
method first consults a per-engine dict keyed by (original_query, strategy,
max_candidates, stringified filters) and returns any memoised record; the
claims concern the computed record).  Any exception from filter construction
or candidate search is caught and turned into the error record. -/
def afterFirstSearch (searchFn : Option BuiltFilter → Except String (List String))
    (qa : QueryAnalysis) : Except String (List String) → PFResult
  | .error e =>
    { candidates := [], count := 0, strategyUsed := "error",
      filtersApplied := 0, fallbackUsed := false, originalCount := 0,
      error := some e }
  | .ok cands =>
    let result : PFResult :=
      { candidates := cands, count := cands.length,
        strategyUsed := qa.filterStrategy,
        filtersApplied := qa.qdrantFilters.length,
        fallbackUsed := false, originalCount := cands.length, error := none }
    if cands.length = 0 ∧ qa.filterStrategy ≠ "loose" then
      applyFallbackStrategy searchFn qa result
    else result

def getFilteredCandidates (searchFn : Option BuiltFilter → Except String (List String))
    (qa : QueryAnalysis) : PFResult :=
  afterFirstSearch searchFn qa
    (searchFn (createAdaptiveFilter qa.qdrantFilters qa.filterStrategy))

/-- Claim C5 (confirmed): when the filtered candidate search returns zero
candidates and the strategy is not `loose`, the prefilter retries with the
`loose` filter; if that retry yields fewer than two candidates it retries
with no filter at all; the returned record reports `fallback_used = true`
and `strategy_used` equal to `loose_fallback` or `no_filters_fallback`
according to which rung succeeded. -/
theorem prefilter_fallback_ladder
    (searchFn : Option BuiltFilter → Except String (List String))
    (qa : QueryAnalysis) (l : List String)
    (h0 : searchFn (createAdaptiveFilter qa.qdrantFilters qa.filterStrategy)
      = Except.ok [])
    (hstrat : qa.filterStrategy ≠ "loose")
    (hloose : searchFn (createAdaptiveFilter qa.qdrantFilters "loose")
      = Except.ok l) :
    (2 ≤ l.length →
      (getFilteredCandidates searchFn qa).fallbackUsed = true ∧
      (getFilteredCandidates searchFn qa).strategyUsed = "loose_fallback" ∧
      (getFilteredCandidates searchFn qa).candidates = l) ∧
    (l.length < 2 → ∀ l2, searchFn none = Except.ok l2 →
      (getFilteredCandidates searchFn qa).fallbackUsed = true ∧
      (getFilteredCandidates searchFn qa).strategyUsed = "no_filters_fallback" ∧
      (getFilteredCandidates searchFn qa).candidates = l2) := by
  have hmain : getFilteredCandidates searchFn qa
      = applyFallbackStrategy searchFn qa
        { candidates := [], count := 0, strategyUsed := qa.filterStrategy,
          filtersApplied := qa.qdrantFilters.length, fallbackUsed := false,
          originalCount := 0, error := none } := by
    unfold getFilteredCandidates
    rw [h0]
    simp [afterFirstSearch, hstrat]
  constructor
  · intro hlen
    rw [hmain]
    unfold applyFallbackStrategy
    rw [hloose]
    simp only [looseRung]
    rw [if_neg (by omega)]
    exact ⟨rfl, rfl, rfl⟩
  · intro hlen l2 h2
    rw [hmain]
    unfold applyFallbackStrategy
    rw [hloose]
    simp only [looseRung]
    rw [if_pos hlen, h2]
    simp [noFilterRung]

/-- Claim C10 (confirmed): `get_filtered_candidates` never propagates an
exception.  A failing candidate search yields the well-formed error record
(empty candidates, count 0, `strategy_used = "error"`,
`fallback_used = false`, the message recorded); a failing fallback retry —
on either rung — returns the original pre-fallback record unchanged. -/
theorem prefilter_error_handling
    (searchFn : Option BuiltFilter → Except String (List String))
    (qa : QueryAnalysis) :
    (∀ e, searchFn (createAdaptiveFilter qa.qdrantFilters qa.filterStrategy)
        = Except.error e →
      getFilteredCandidates searchFn qa
        = { candidates := [], count := 0, strategyUsed := "error",
            filtersApplied := 0, fallbackUsed := false, originalCount := 0,
            error := some e }) ∧
    (searchFn (createAdaptiveFilter qa.qdrantFilters qa.filterStrategy)
        = Except.ok [] →
      qa.filterStrategy ≠ "loose" →
      ∀ eL, searchFn (createAdaptiveFilter qa.qdrantFilters "loose")
          = Except.error eL →
        getFilteredCandidates searchFn qa
          = { candidates := [], count := 0, strategyUsed := qa.filterStrategy,
              filtersApplied := qa.qdrantFilters.length, fallbackUsed := false,
              originalCount := 0, error := none }) ∧
    (searchFn (createAdaptiveFilter qa.qdrantFilters qa.filterStrategy)
        = Except.ok [] →
      qa.filterStrategy ≠ "loose" →
      ∀ l, searchFn (createAdaptiveFilter qa.qdrantFilters "loose")
          = Except.ok l →
        l.length < 2 → ∀ e2, searchFn none = Except.error e2 →
        getFilteredCandidates searchFn qa
          = { candidates := [], count := 0, strategyUsed := qa.filterStrategy,
              filtersApplied := qa.qdrantFilters.length, fallbackUsed := false,
              originalCount := 0, error := none }) := by
  refine ⟨?_, ?_, ?_⟩
  · intro e he
    unfold getFilteredCandidates
    rw [he]
    simp only [afterFirstSearch]
  · intro h0 hstrat eL heL
    unfold getFilteredCandidates
    rw [h0]
    simp [afterFirstSearch, hstrat]
    unfold applyFallbackStrategy
    rw [heL]
    simp only [looseRung]
  · intro h0 hstrat l hl hlen e2 he2
    unfold getFilteredCandidates
    rw [h0]
    simp [afterFirstSearch, hstrat]
    unfold applyFallbackStrategy
    rw [hl]
    simp only [looseRung]
    rw [if_pos hlen, he2]
    simp only [noFilterRung]

/-- A query analysis that produces a non-empty strict filter. -/
def wQA : QueryAnalysis :=
  { originalQuery := "q", semanticQuery := "q", filterStrategy := "strict",
    qdrantFilters := [QCondition.otherCond "is_historical_site",
                      QCondition.otherCond "is_religious_site"] }

/-- A search oracle: the strict filter (two must clauses) matches nothing,
the loose filter (one must clause) matches one point, no filter matches
two. -/
def wSearchFn : Option BuiltFilter → Except String (List String) :=
  fun f =>
    match f with
    | some bf => if bf.mustClauses.length = 2 then Except.ok [] else Except.ok ["x"]
    | none => Except.ok ["y", "z"]

/-- Witness for `prefilter_fallback_ladder`: the strict search is empty, the
loose rung returns a single candidate, so the no-filter rung answers. -/
theorem prefilter_fallback_ladder_witness :
    (getFilteredCandidates wSearchFn wQA).fallbackUsed = true ∧
    (getFilteredCandidates wSearchFn wQA).strategyUsed = "no_filters_fallback" ∧
    (getFilteredCandidates wSearchFn wQA).candidates = ["y", "z"] :=
  (prefilter_fallback_ladder wSearchFn wQA ["x"] (by rfl) (by decide)
    (by rfl)).2 (by decide) ["y", "z"] (by rfl)

/-- A search oracle that fails on every filtered search. -/
def wErrFn : Option BuiltFilter → Except String (List String) :=
  fun f =>
    match f with
    | some _ => Except.error "boom"
    | none => Except.ok ["y"]

/-- Witness for `prefilter_error_handling`: a failing candidate search
yields the error record. -/
theorem prefilter_error_handling_witness :
    getFilteredCandidates wErrFn wQA
      = { candidates := [], count := 0, strategyUsed := "error",
          filtersApplied := 0, fallbackUsed := false, originalCount := 0,
          error := some "boom" } :=
  (prefilter_error_handling wErrFn wQA).1 "boom" (by rfl)

end PreFilter

namespace Multilingual

/-- `MultilingualManager.distinctive_words` (multilingual_manager.py lines
81-97), transcribed verbatim: the curated distinctive-word vocabulary of
each of the 14 word-matched languages. -/
def distinctive_words : List (String × List String) :=
  [("ka", ["რა", "როგორ", "სად", "როდის", "რატომ", "მითხარი", "აჩვენე", "ახსენი", "ქართული", "გთხოვთ"]),
   ("hy", ["պատմիր", "պատմեք", "ասիր", "ասեք", "ինչպես", "որտեղ", "մասին", "հայերեն", "ցույց", "օգնիր"]),
   ("az", ["danış", "haqqında", "harada", "necə", "niyə", "azərbaycan", "göstər", "izah", "kömək", "gözəl", "yerlər", "milli"]),
   ("it", ["parlami", "dimmi", "raccontami", "perché", "cosa", "dove", "quando", "della", "degli", "italiano"]),
   ("fr", ["parlez", "dites", "racontez", "pourquoi", "église", "château", "quoi", "où", "français", "voulez"]),
   ("de", ["erzählen", "erzähl", "über", "können", "würde", "möchte", "sehenswürdigkeiten", "deutsch", "ihnen", "welche"]),
   ("es", ["cuéntame", "háblame", "sobre", "dónde", "cuándo", "cómo", "qué", "español", "ayúdame", "muéstrame"]),
   ("nl", ["vertel", "vertellen", "waarom", "wanneer", "welke", "nederlands", "graag", "alsjeblieft", "natuurlijk", "geef"]),
   ("pl", ["opowiedz", "powiedz", "gdzie", "kiedy", "dlaczego", "który", "polska", "polski", "proszę", "dziękuję"]),
   ("cs", ["řekni", "řekněte", "pověz", "proč", "který", "čeština", "prosím", "děkuji", "není", "jste"]),
   ("ru", ["расскажи", "покажи", "объясни", "помоги", "который", "русский", "пожалуйста", "спасибо", "здравствуй", "хорошо"]),
   ("tr", ["anlat", "anlatın", "söyle", "hakkında", "nerede", "neden", "nasıl", "türkçe", "lütfen", "teşekkür"]),
   ("hi", ["बताएं", "बताइए", "दिखाएं", "समझाएं", "के बारे में", "कहाँ", "कैसे", "कृपया", "धन्यवाद", "हिंदी"]),
   ("en", ["tell", "show", "explain", "describe", "about", "where", "when", "english", "please", "thank"])]

/-- `MultilingualManager.language_patterns` (lines 100-105): the
script-pattern token lists of the 4 CJK/Arabic languages. -/
def language_patterns : List (String × List String) :=
  [("zh", ["什么", "怎么", "哪里", "告诉", "中文", "格鲁吉亚", "第比利斯"]),
   ("ja", ["何", "どこ", "どうやって", "教えて", "について", "日本語", "ジョージア"]),
   ("ko", ["무엇", "어디", "어떻게", "알려주세요", "한국어", "조지아", "트빌리시"]),
   ("ar", ["ما", "كيف", "أين", "أخبرني", "عن", "العربية", "جورجيا"])]

/-- All 18 supported vocabularies. -/
def allVocabularies : List (String × List String) :=
  distinctive_words ++ language_patterns

/-- Claim C6 (confirmed): zero-overlap invariant — for every pair of
distinct supported languages, no token appears in both vocabularies.
`_verify_no_overlaps` compares `word.lower()`; every stored token is
already lower-case (no token contains an upper-case letter in any script
Python folds), so ASCII case folding — under which each list is literally
fixed — is faithful here, and the comparison below is on the tokens
themselves. -/
theorem distinctive_words_zero_overlap :
    ∀ p1 ∈ allVocabularies, ∀ p2 ∈ allVocabularies,
      p1.1 ≠ p2.1 → ∀ w1 ∈ p1.2, ∀ w2 ∈ p2.2,
        BM25.asciiLower w1 ≠ BM25.asciiLower w2 := by
  decide

/-- Witness for `distinctive_words_zero_overlap`: the Polish and Czech
lists both carry a word spelled k-t-?-r-ý, but with different accented
vowels; they do not collide. -/
theorem distinctive_words_zero_overlap_witness :
    BM25.asciiLower "który" ≠ BM25.asciiLower "který" :=
  distinctive_words_zero_overlap
    ("pl", ["opowiedz", "powiedz", "gdzie", "kiedy", "dlaczego", "który", "polska", "polski", "proszę", "dziękuję"])
    (by decide)
    ("cs", ["řekni", "řekněte", "pověz", "proč", "který", "čeština", "prosím", "děkuji", "není", "jste"])
    (by decide)
    (by decide)
    "który" (by decide)
    "který" (by decide)

end Multilingual

namespace Enrichment

/-- An element of `enrichment_data['unsplash_images']`: the persister only
looks at whether it is a dict and at `urls.regular`, `user.name`,
`alt_description` (each possibly absent). -/
structure UnsplashImg where
  isDict : Bool
  urlsRegular : Option String
  userName : Option String
  altDescription : Option String
  deriving DecidableEq

/-- The dict the persister builds per kept Unsplash image. -/
structure UnsplashEntry where
  url : Option String
  photographer : Option String
  alt : Option String
  deriving DecidableEq

/-- Payload values as far as the persister writes or tests them. -/
inductive Value where
  | vstr (s : String)
  | vbool (b : Bool)
  | vstrList (l : List String)
  | ventryList (l : List UnsplashEntry)
  | vnull
  deriving DecidableEq

/-- Python truthiness of a payload value. -/
def Value.truthy : Value → Bool
  | .vstr s => s != ""
  | .vbool b => b
  | .vstrList l => !l.isEmpty
  | .ventryList l => !l.isEmpty
  | .vnull => false

/-- `updated_payload.get(k)` truthiness: false when the key is absent. -/
def getTruthy (p : List (String × Value)) (k : String) : Bool :=
  match Fusion.getA p k with
  | some v => v.truthy
  | none => false

/-- The fields of `enrichment_data` the persister reads
(`WebEnrichmentEngine` builds them from Wikipedia / Unsplash results;
a `None` Wikipedia content is modelled as the empty string, equally falsy). -/
structure EnrichmentData where
  wikipedia_content : String
  wikipedia_images : List String
  unsplash_images : List UnsplashImg
  enrichment_sources : List String

lemma getA_map_overwrite {β : Type} (m : List (String × β)) (k : String) (v : β)
    (h : (Fusion.getA m k).isSome) :
    Fusion.getA (m.map fun p => if p.1 = k then (k, v) else p) k = some v := by
  induction m with
  | nil => simp [Fusion.getA] at h
  | cons p rest ih =>
    obtain ⟨k2, w⟩ := p
    rw [List.map_cons]
    by_cases hk : k2 = k
    · subst hk
      rw [if_pos (show (k2, w).1 = k2 from rfl)]
      simp [Fusion.getA]
    · have hne : ¬ k = k2 := fun h2 => hk h2.symm
      have h3 : (Fusion.getA rest k).isSome := by
        simpa [Fusion.getA, hne] using h
      rw [if_neg (show ¬ (k2, w).1 = k from hk)]
      simp [Fusion.getA, hne, ih h3]

lemma getA_append_right {β : Type} (m : List (String × β)) (k : String)
    (l : List (String × β)) (h : Fusion.getA m k = none) :
    Fusion.getA (m ++ l) k = Fusion.getA l k := by
  induction m with
  | nil => simp
  | cons p rest ih =>
    obtain ⟨k2, w⟩ := p
    by_cases hne : k = k2
    · simp [Fusion.getA, hne] at h
    · simp only [List.cons_append, Fusion.getA, if_neg hne] at h ⊢
      exact ih h

/-- Reading back the key `setEntry` just wrote returns the new value. -/
lemma getA_setEntry_same {β : Type} (m : List (String × β)) (k : String) (v : β) :
    Fusion.getA (Fusion.setEntry m k v) k = some v := by
  unfold Fusion.setEntry
  split
  · exact getA_map_overwrite m k v (by assumption)
  · rename_i h
    rw [getA_append_right m k _ (Option.not_isSome_iff_eq_none.mp h)]
    simp [Fusion.getA]

lemma getA_map_ne {β : Type} (m : List (String × β)) (k : String) (v : β)
    (k' : String) (h : k' ≠ k) :
    Fusion.getA (m.map fun p => if p.1 = k then (k, v) else p) k'
      = Fusion.getA m k' := by
  induction m with
  | nil => rfl
  | cons p rest ih =>
    obtain ⟨k2, w⟩ := p
    rw [List.map_cons]
    by_cases hk : k2 = k
    · subst hk
      rw [if_pos (show (k2, w).1 = k2 from rfl)]
      simp [Fusion.getA, h, ih]
    · rw [if_neg (show ¬ (k2, w).1 = k from hk)]
      simp [Fusion.getA, ih]

lemma getA_append_single_ne {β : Type} (m : List (String × β)) (k : String)
    (v : β) (k' : String) (h : k' ≠ k) :
    Fusion.getA (m ++ [(k, v)]) k' = Fusion.getA m k' := by
  induction m with
  | nil => simp [Fusion.getA, h]
  | cons p rest ih =>
    obtain ⟨k2, w⟩ := p
    simp only [List.cons_append, Fusion.getA]
    rw [show rest.append [(k, v)] = rest ++ [(k, v)] from rfl, ih]

/-- Reading any other key through `setEntry` is unchanged. -/
lemma getA_setEntry_ne {β : Type} (m : List (String × β)) (k : String) (v : β)
    (k' : String) (h : k' ≠ k) :
    Fusion.getA (Fusion.setEntry m k v) k' = Fusion.getA m k' := by
  unfold Fusion.setEntry
  split
  · exact getA_map_ne m k v k' h
  · exact getA_append_single_ne m k v k' h

/-- persister.py lines 125-127: write `description_enriched` when Wikipedia
content is truthy. -/
def step1 (p : List (String × Value)) (data : EnrichmentData) :
    List (String × Value) :=
  if data.wikipedia_content ≠ "" then
    Fusion.setEntry p "description_enriched" (Value.vstr data.wikipedia_content)
  else p

/-- Lines 129-131: write the first five Wikipedia images when present. -/
def step2 (p : List (String × Value)) (data : EnrichmentData) :
    List (String × Value) :=
  if data.wikipedia_images ≠ [] then
    Fusion.setEntry p "images_wikipedia"
      (Value.vstrList (data.wikipedia_images.take 5))
  else p

/-- Lines 135-143: of the first five Unsplash results, keep the dicts,
projected to url / photographer / alt. -/
def unsplashEntries (imgs : List UnsplashImg) : List UnsplashEntry :=
  (imgs.take 5).filterMap (fun img =>
    if img.isDict then some ⟨img.urlsRegular, img.userName, img.altDescription⟩
    else none)

/-- Lines 133-146: write `images_unsplash` only when Unsplash results exist
AND the payload has no truthy `image_url`. -/
def step3 (p : List (String × Value)) (data : EnrichmentData) :
    List (String × Value) :=
  if data.unsplash_images ≠ [] ∧ getTruthy p "image_url" = false then
    Fusion.setEntry p "images_unsplash"
      (Value.ventryList (unsplashEntries data.unsplash_images))
  else p

/-- The `enriched_fields` bookkeeping list, built alongside steps 1-3
(`p2` is the payload as it stands when the Unsplash guard runs). -/
def enrichedFields (p2 : List (String × Value)) (data : EnrichmentData) :
    List String :=
  (if data.wikipedia_content ≠ "" then ["wikipedia_content"] else [])
  ++ (if data.wikipedia_images ≠ [] then ["wikipedia_images"] else [])
  ++ (if data.unsplash_images ≠ [] ∧ getTruthy p2 "image_url" = false then
        ["unsplash_images"] else [])

/-- Lines 147-151: the unconditional metadata writes. -/
def metaSteps (p : List (String × Value)) (data : EnrichmentData)
    (nowIso : String) (ef : List String) : List (String × Value) :=
  Fusion.setEntry
    (Fusion.setEntry
      (Fusion.setEntry
        (Fusion.setEntry p "enriched_at" (Value.vstr nowIso))
        "enrichment_sources" (Value.vstrList data.enrichment_sources))
      "is_enriched" (Value.vbool true))
    "enriched_fields" (Value.vstrList ef)

/-- `EnrichmentPersister._persist_enrichment_sync` payload transformation
(the Qdrant retrieve / set_payload round-trip abstracted away; `nowIso` is
`datetime.now(timezone.utc).isoformat()`). -/
def persistSync (payload : List (String × Value)) (data : EnrichmentData)
    (nowIso : String) : List (String × Value) :=
  metaSteps (step3 (step2 (step1 payload data) data) data) data nowIso
    (enrichedFields (step2 (step1 payload data) data) data)

lemma getA_step1_ne (p : List (String × Value)) (data : EnrichmentData)
    (k : String) (h : k ≠ "description_enriched") :
    Fusion.getA (step1 p data) k = Fusion.getA p k := by
  unfold step1
  split
  · exact getA_setEntry_ne _ _ _ _ h
  · rfl

lemma getA_step2_ne (p : List (String × Value)) (data : EnrichmentData)
    (k : String) (h : k ≠ "images_wikipedia") :
    Fusion.getA (step2 p data) k = Fusion.getA p k := by
  unfold step2
  split
  · exact getA_setEntry_ne _ _ _ _ h
  · rfl

lemma getA_step3_ne (p : List (String × Value)) (data : EnrichmentData)
    (k : String) (h : k ≠ "images_unsplash") :
    Fusion.getA (step3 p data) k = Fusion.getA p k := by
  unfold step3
  split
  · exact getA_setEntry_ne _ _ _ _ h
  · rfl

lemma getA_metaSteps_ne (p : List (String × Value)) (data : EnrichmentData)
    (nowIso : String) (ef : List String) (k : String)
    (h1 : k ≠ "enriched_at") (h2 : k ≠ "enrichment_sources")
    (h3 : k ≠ "is_enriched") (h4 : k ≠ "enriched_fields") :
    Fusion.getA (metaSteps p data nowIso ef) k = Fusion.getA p k := by
  unfold metaSteps
  rw [getA_setEntry_ne _ _ _ _ h4, getA_setEntry_ne _ _ _ _ h3,
    getA_setEntry_ne _ _ _ _ h2, getA_setEntry_ne _ _ _ _ h1]

/-- Claim C7 (amended form, confirmed as amended): every write-back sets
`is_enriched = true` and sets `enriched_at`; and whenever Wikipedia content
was fetched, `description_enriched` carries it (a non-empty enrichment
field).  The unconditional "at least one enrichment field non-empty" part
of the frozen claim fails — see the counterexample. -/
theorem enrichment_payload_invariant (payload : List (String × Value))
    (data : EnrichmentData) (nowIso : String) :
    Fusion.getA (persistSync payload data nowIso) "is_enriched"
      = some (Value.vbool true)
  ∧ Fusion.getA (persistSync payload data nowIso) "enriched_at"
      = some (Value.vstr nowIso)
  ∧ (data.wikipedia_content ≠ "" →
      Fusion.getA (persistSync payload data nowIso) "description_enriched"
        = some (Value.vstr data.wikipedia_content)) := by
  unfold persistSync
  refine ⟨?_, ?_, ?_⟩
  · unfold metaSteps
    rw [getA_setEntry_ne _ _ _ _ (by decide), getA_setEntry_same]
  · unfold metaSteps
    rw [getA_setEntry_ne _ _ _ _ (by decide), getA_setEntry_ne _ _ _ _ (by decide),
      getA_setEntry_ne _ _ _ _ (by decide), getA_setEntry_same]
  · intro hw
    rw [getA_metaSteps_ne _ _ _ _ _ (by decide) (by decide) (by decide) (by decide),
      getA_step3_ne _ _ _ (by decide), getA_step2_ne _ _ _ (by decide)]
    unfold step1
    rw [if_pos hw, getA_setEntry_same]

/-- Counterexample to claim C7 as frozen: a document that already carries a
truthy `image_url`, enriched from Unsplash alone (sources non-empty, so
`enrich_content` does persist), ends with `is_enriched = true` and
`enriched_at` set, yet none of `description_enriched`, `images_wikipedia`,
`images_unsplash` is present: the Unsplash write is skipped in favour of the
existing image and `enriched_fields` is empty. -/
theorem enrichment_invariant_claim_counterexample :
    Fusion.getA (persistSync
        [("image_url", Value.vstr "https://cdn.example/img.jpg")]
        { wikipedia_content := "", wikipedia_images := [],
          unsplash_images := [⟨true, some "u", some "ph", some "alt"⟩],
          enrichment_sources := ["unsplash"] }
        "2024-01-01T00:00:00+00:00") "is_enriched" = some (Value.vbool true)
  ∧ getTruthy (persistSync
        [("image_url", Value.vstr "https://cdn.example/img.jpg")]
        { wikipedia_content := "", wikipedia_images := [],
          unsplash_images := [⟨true, some "u", some "ph", some "alt"⟩],
          enrichment_sources := ["unsplash"] }
        "2024-01-01T00:00:00+00:00") "description_enriched" = false
  ∧ getTruthy (persistSync
        [("image_url", Value.vstr "https://cdn.example/img.jpg")]
        { wikipedia_content := "", wikipedia_images := [],
          unsplash_images := [⟨true, some "u", some "ph", some "alt"⟩],
          enrichment_sources := ["unsplash"] }
        "2024-01-01T00:00:00+00:00") "images_wikipedia" = false
  ∧ getTruthy (persistSync
        [("image_url", Value.vstr "https://cdn.example/img.jpg")]
        { wikipedia_content := "", wikipedia_images := [],
          unsplash_images := [⟨true, some "u", some "ph", some "alt"⟩],
          enrichment_sources := ["unsplash"] }
        "2024-01-01T00:00:00+00:00") "images_unsplash" = false := by
  decide

/-- Witness for `enrichment_payload_invariant` at a concrete payload and a
Wikipedia-bearing enrichment. -/
theorem enrichment_payload_invariant_witness :
    Fusion.getA (persistSync [("name", Value.vstr "Gergeti")]
        { wikipedia_content := "W", wikipedia_images := [],
          unsplash_images := [], enrichment_sources := ["wikipedia"] }
        "t0") "is_enriched" = some (Value.vbool true)
  ∧ Fusion.getA (persistSync [("name", Value.vstr "Gergeti")]
        { wikipedia_content := "W", wikipedia_images := [],
          unsplash_images := [], enrichment_sources := ["wikipedia"] }
        "t0") "enriched_at" = some (Value.vstr "t0")
  ∧ Fusion.getA (persistSync [("name", Value.vstr "Gergeti")]
        { wikipedia_content := "W", wikipedia_images := [],
          unsplash_images := [], enrichment_sources := ["wikipedia"] }
        "t0") "description_enriched" = some (Value.vstr "W") := by
  obtain ⟨h1, h2, h3⟩ := enrichment_payload_invariant
    [("name", Value.vstr "Gergeti")]
    { wikipedia_content := "W", wikipedia_images := [],
      unsplash_images := [], enrichment_sources := ["wikipedia"] } "t0"
  exact ⟨h1, h2, h3 (by decide)⟩

/-- Claim C8 (confirmed): a non-empty `image_url` survives the write-back
with the same value — no branch of `_persist_enrichment_sync` writes to
`image_url`. -/
theorem image_url_preservation (payload : List (String × Value))
    (data : EnrichmentData) (nowIso : String) (v : Value)
    (h : Fusion.getA payload "image_url" = some v) (_hv : v.truthy = true) :
    Fusion.getA (persistSync payload data nowIso) "image_url" = some v := by
  unfold persistSync
  rw [getA_metaSteps_ne _ _ _ _ _ (by decide) (by decide) (by decide) (by decide),
    getA_step3_ne _ _ _ (by decide), getA_step2_ne _ _ _ (by decide),
    getA_step1_ne _ _ _ (by decide), h]

/-- Witness for `image_url_preservation`. -/
theorem image_url_preservation_witness :
    Fusion.getA (persistSync
        [("image_url", Value.vstr "https://cdn.example/a.jpg")]
        { wikipedia_content := "W", wikipedia_images := ["i1"],
          unsplash_images := [⟨true, some "u", some "ph", some "alt"⟩],
          enrichment_sources := ["wikipedia", "unsplash"] }
        "t0") "image_url" = some (Value.vstr "https://cdn.example/a.jpg") :=
  image_url_preservation
    [("image_url", Value.vstr "https://cdn.example/a.jpg")]
    { wikipedia_content := "W", wikipedia_images := ["i1"],
      unsplash_images := [⟨true, some "u", some "ph", some "alt"⟩],
      enrichment_sources := ["wikipedia", "unsplash"] }
    "t0" (Value.vstr "https://cdn.example/a.jpg") (by decide) (by decide)

end Enrichment

namespace Orchestrator

/-- Execution events of `HybridSearchEngine._focused_search`.  The method is
a plain synchronous `def` (no `async`, no threads, no executor anywhere in
HybridSearchEngine.py), so its execution is the sequence of its statements;
each event marks the start or completion of one stage in source order. -/
inductive StageEvent where
  | prefilterStart
  | prefilterDone
  | fetchDone
  | bm25Start
  | bm25Done
  | denseStart
  | denseDone
  | fusionStart
  | fusionDone
  | fallback
  deriving DecidableEq

/-- The event trace of `_focused_search` (lines 110-190), parametrised by
the candidate list the prefilter returned: prefilter (lines 114-118), the
empty-candidates fallback (lines 122-124), then — single-threaded and in
statement order — document fetch (line 131), the BM25 block (lines 129-142),
the dense block (lines 145-154), and RRF fusion (lines 157-172). -/
def focusedSearchTrace (candidates : List String) : List StageEvent :=
  [StageEvent.prefilterStart, StageEvent.prefilterDone] ++
  (if candidates.isEmpty then [StageEvent.fallback]
   else [StageEvent.fetchDone, StageEvent.bm25Start, StageEvent.bm25Done,
         StageEvent.denseStart, StageEvent.denseDone,
         StageEvent.fusionStart, StageEvent.fusionDone])

/-- Position of an event in the trace. -/
def stageIndex (candidates : List String) (e : StageEvent) : ℕ :=
  (focusedSearchTrace candidates).indexOf e

/-- Claim C9 (amended form): after a non-empty prefilter result the
orchestrator runs BM25 to completion, then dense to completion — strictly
sequentially — and both scoring stages complete before fusion starts.  The
frozen claim's "in parallel" fails: see the counterexample. -/
theorem orchestrator_stage_ordering (candidates : List String)
    (h : candidates ≠ []) :
    stageIndex candidates StageEvent.bm25Start
      < stageIndex candidates StageEvent.bm25Done
  ∧ stageIndex candidates StageEvent.bm25Done
      < stageIndex candidates StageEvent.denseStart
  ∧ stageIndex candidates StageEvent.denseStart
      < stageIndex candidates StageEvent.denseDone
  ∧ stageIndex candidates StageEvent.denseDone
      < stageIndex candidates StageEvent.fusionStart := by
  have ht : focusedSearchTrace candidates =
      [StageEvent.prefilterStart, StageEvent.prefilterDone,
       StageEvent.fetchDone, StageEvent.bm25Start, StageEvent.bm25Done,
       StageEvent.denseStart, StageEvent.denseDone,
       StageEvent.fusionStart, StageEvent.fusionDone] := by
    unfold focusedSearchTrace
    rw [if_neg (by simpa using h)]
    rfl
  unfold stageIndex
  rw [ht]
  decide

/-- Counterexample to claim C9 as frozen: on a concrete non-empty candidate
set the BM25 interval [bm25Start, bm25Done] and the dense interval
[denseStart, denseDone] do not overlap in the execution trace — BM25 has
completed before dense begins — so the two scoring stages do not run in
parallel. -/
theorem orchestrator_parallel_claim_counterexample :
    ¬ (stageIndex ["c1"] StageEvent.denseStart
         < stageIndex ["c1"] StageEvent.bm25Done
       ∧ stageIndex ["c1"] StageEvent.bm25Start
         < stageIndex ["c1"] StageEvent.denseDone) := by
  decide

/-- Witness for `orchestrator_stage_ordering` at a one-candidate prefilter
result. -/
theorem orchestrator_stage_ordering_witness :
    stageIndex ["c1"] StageEvent.bm25Start < stageIndex ["c1"] StageEvent.bm25Done
  ∧ stageIndex ["c1"] StageEvent.bm25Done < stageIndex ["c1"] StageEvent.denseStart
  ∧ stageIndex ["c1"] StageEvent.denseStart < stageIndex ["c1"] StageEvent.denseDone
  ∧ stageIndex ["c1"] StageEvent.denseDone < stageIndex ["c1"] StageEvent.fusionStart :=
  orchestrator_stage_ordering ["c1"] (by decide)

end Orchestrator






end GeorgianRag
